import Mathlib

/-!
Verification of the Rotation & Deadline Engine of the Domestic-task-manager
repository.  The Python sources are shallowly embedded:

* timestamps are integers (seconds); a day has 86400 seconds, a week 604800;
  day index `d` has weekday `d % 7` (day 0 is a Monday, matching the
  `DAY_MAP` convention Lundi = 0 … Dimanche = 6);
* the single configured time zone of `TimePatternService` is modelled by
  working directly on these linear timestamps, so `datetime.combine` is
  `day * 86400 + secondOfDay`;
* preference strings are modelled after parsing: `_parse_preference` returns
  a (weekday?, time?) pair with at least one component, i.e. one of the three
  token shapes below;
* the SQLAlchemy session is an explicit record `DBState`; `crud` helpers are
  functions on it; the `Exception` caught by
  `TaskManager._process_active_instances` is modelled by returning the state
  unchanged on the crashing path (no write happens before the raise there).
-/

/-- A parsed start preference, the result of
`TimePatternService._parse_preference`: `"<Day> <HH:MM:SS>"`, `"<Day>"` or
`"<HH:MM:SS>"`.  Weekdays are `0..6` (Lundi = 0), times are seconds of day. -/
inductive Pref where
  | dayTime (d : Nat) (t : Nat)
  | dayOnly (d : Nat)
  | timeOnly (t : Nat)
deriving DecidableEq, Repr

/-- `datetime.combine(date, time, tz)` on linear timestamps. -/
def combine (day : Int) (t : Nat) : Int := day * 86400 + (t : Int)

/-- `moment.date()` as a day index (floor division, as Python does). -/
def dateOf (ts : Int) : Int := ts / 86400

/-- `moment.weekday()`; day 0 is a Monday. -/
def weekdayOf (ts : Int) : Int := (ts / 86400) % 7

/-- `TimePatternService._next_occurrence_after`. -/
def next_occurrence_after (moment : Int) (weekday : Nat) (at_time : Nat) : Int :=
  let days_ahead := ((weekday : Int) - weekdayOf moment) % 7
  let candidate := combine (dateOf moment + days_ahead) at_time
  if candidate ≤ moment then candidate + 604800 else candidate

/-- `TimePatternService._nearest_occurrence_to`; returns the occurrence and
its absolute distance to the anchor. -/
def nearest_occurrence_to (anchor : Int) (weekday : Nat) (at_time : Nat) : Int × Int :=
  let days_ahead := ((weekday : Int) - weekdayOf anchor) % 7
  let next0 := combine (dateOf anchor + days_ahead) at_time
  let next_occ := if next0 < anchor then next0 + 604800 else next0
  let prev_occ := next_occ - 604800
  let delta_next := |next_occ - anchor|
  let delta_prev := |anchor - prev_occ|
  if delta_prev ≤ delta_next then (prev_occ, delta_prev) else (next_occ, delta_next)

/-- The `while candidate > end_date: candidate -= timedelta(days=7)` loop of
`find_start_datetime`, written with an explicit fuel that bounds the number
of iterations (each iteration lowers `candidate` by 604800 ≥ 1, so
`(candidate - end).toNat` steps always suffice). -/
def rollBackAux (endDate : Int) : Nat → Int → Int
  | 0, c => c
  | n + 1, c => if c > endDate then rollBackAux endDate n (c - 604800) else c

/-- Roll a candidate backward in 7-day steps until it no longer exceeds
`endDate` (a no-op when it already does not). -/
def rollBack (endDate : Int) (c : Int) : Int :=
  rollBackAux endDate (c - endDate).toNat c

/-- The smallest element of a list of times, `times_only[0]` after sorting. -/
def smallestOf (t0 : Nat) (ts : List Nat) : Nat := ts.foldl min t0

/-- `TimePatternService._build_patterns`: canonical weekly `(weekday, time)`
patterns.  The Python function builds a `set`; the selection logic that
consumes the patterns is order- and duplicate-insensitive, so a list is an
adequate model.  The third inner loop of the source (time-only values applied
to allowed days that are neither day+time nor day-only) is kept although its
guard is unsatisfiable, as in the source.
The partition of parsed tokens is expressed with the three selectors below. -/
def prefDayTime : Pref → Option (Nat × Nat)
  | .dayTime d t => some (d, t)
  | _ => none

/-- The day-only component of a parsed preference. -/
def prefDayOnly : Pref → Option Nat
  | .dayOnly d => some d
  | _ => none

/-- The time-only component of a parsed preference. -/
def prefTimeOnly : Pref → Option Nat
  | .timeOnly t => some t
  | _ => none

def build_patterns (start_preferences : List Pref) : List (Nat × Nat) :=
  let dayTimes := start_preferences.filterMap prefDayTime
  let dayOnlyDays := start_preferences.filterMap prefDayOnly
  let timesOnly := start_preferences.filterMap prefTimeOnly
  if dayTimes.isEmpty ∧ dayOnlyDays.isEmpty then
    match timesOnly with
    | [] => (List.range 7).map fun d => (d, 0)
    | _ => (List.range 7).flatMap fun d => timesOnly.map fun t => (d, t)
  else
    let explicitPats := dayTimes
    let smallest := match timesOnly with
      | [] => 0
      | t0 :: ts => smallestOf t0 ts
    let dayOnlyPats := (dayOnlyDays.filter fun d =>
        ¬ dayTimes.any fun dt => dt.1 = d).map fun d => (d, smallest)
    let allowedDays := dayTimes.map Prod.fst ++ dayOnlyDays
    let broadcast := (allowedDays.filter fun d =>
        (¬ dayTimes.any fun dt => dt.1 = d) ∧ d ∉ dayOnlyDays ∧ ¬ timesOnly.isEmpty).flatMap
        fun d => timesOnly.map fun t => (d, t)
    explicitPats ++ dayOnlyPats ++ broadcast

/-- One step of the best-candidate selection in the deadline branch of
`find_start_datetime`: keep the pattern occurrence with minimum distance to
the target, ties resolved toward the chronologically earlier timestamp. -/
def bestStep (endDate target : Int) (best : Option (Int × Int)) (p : Nat × Nat) :
    Option (Int × Int) :=
  let c0 := (nearest_occurrence_to target p.1 p.2).1
  let c := rollBack endDate c0
  let score := |c - target|
  match best with
  | none => some (c, score)
  | some (bd, bs) =>
      if score < bs ∨ (score = bs ∧ c < bd) then some (c, score) else some (bd, bs)

/-- `TimePatternService.find_start_datetime`.  `now` is the instant
`datetime.now(self.TIMEZONE)` at which the resolver is invoked. -/
def find_start_datetime (now : Int) (start_preferences : List Pref)
    (end_date : Option Int) (nb_days : Option Int) : Int :=
  let patterns := build_patterns start_preferences
  match nb_days, end_date with
  | some nb, some e =>
      let target := e - nb * 86400
      (match patterns.foldl (bestStep e target) none with
       | some (bd, _) => bd
       | none =>
          match patterns.map (fun p => next_occurrence_after now p.1 p.2) with
          | [] => now
          | c :: cs => cs.foldl min c)
  | _, _ =>
      match patterns.map (fun p => next_occurrence_after now p.1 p.2) with
      | [] => now
      | c :: cs => cs.foldl min c

/-! ## Data model (`app/database/models.py`, `app/constants.py`) -/

def STATUS_ACTIVE : String := "active"
def STATUS_COMPLETED : String := "completed"
def STATUS_TERMINATED : String := "terminated"
def BEHAVIOR_KEEP : String := "Garder"
def BEHAVIOR_CHANGE : String := "Changer"
def BEHAVIOR_KEEP_AND_CHANGE : String := "Garder et changer"
def TRIGGER_PASSED_OVER : String := "passed_over"

/-- `models.User` (credentials are modelled separately, as the set of user
ids that `process_all_tasks` receives credentials for). -/
structure User where
  id : Nat
  name : String
deriving DecidableEq, Repr

/-- `models.TaskDefinition`.  `actors` is the comma-separated actor column
split into a list; `start_preferences` is the preference column parsed into
tokens (the delimited text is a serialization concern). -/
structure TaskDefinition where
  id : Nat
  name : String
  reproduction_period : Int
  pass_over_period : Int
  actors : List String
  overdue_behavior : String
  start_preferences : List Pref
  task_days : Option Int
  is_active : Bool
deriving DecidableEq, Repr

/-- `models.TaskInstance`.  `allow_reassignment` has column default `True`;
`completed_at` is nullable. -/
structure TaskInstance where
  id : Nat
  task_definition_id : Nat
  assigned_user_id : Nat
  assigned_at : Int
  deadline_repeat : Int
  deadline_final : Int
  completed_at : Option Int
  status : String
  start_date : Int
  allow_reassignment : Bool
deriving DecidableEq, Repr

/-- `models.TaskCompletionHistory`. -/
structure TaskCompletionHistory where
  task_instance_id : Nat
  user_id : Nat
  completed_at : Int
  trigger_type : String
deriving DecidableEq, Repr

/-- The database session: all rows, plus the next primary key for
`task_instances`. -/
structure DBState where
  users : List User
  definitions : List TaskDefinition
  instances : List TaskInstance
  logs : List TaskCompletionHistory
  next_instance_id : Nat
deriving DecidableEq, Repr

/-! ## `app/database/crud.py` -/

/-- `crud.get_user_by_name`. -/
def get_user_by_name (s : DBState) (name : String) : Option User :=
  s.users.find? fun u => decide (u.name = name)

/-- `crud.get_active_task_definitions`. -/
def get_active_task_definitions (s : DBState) : List TaskDefinition :=
  s.definitions.filter fun d => d.is_active

/-- `crud.get_active_task_instance_for_definition`: the non-terminated
instances of one definition. -/
def get_active_task_instance_for_definition (s : DBState) (task_def_id : Nat) :
    List TaskInstance :=
  s.instances.filter fun i =>
    decide (i.task_definition_id = task_def_id ∧ i.status ≠ STATUS_TERMINATED)

/-- `crud.get_active_task_instance_for_user`: the first non-terminated
instance of a (definition, user) pair. -/
def get_active_task_instance_for_user (s : DBState) (task_def_id user_id : Nat) :
    Option TaskInstance :=
  s.instances.find? fun i =>
    decide (i.task_definition_id = task_def_id ∧ i.status ≠ STATUS_TERMINATED ∧
            i.assigned_user_id = user_id)

/-- `crud.get_all_active_task_instances`: non-terminated instances of active
definitions. -/
def get_all_active_task_instances (s : DBState) : List TaskInstance :=
  let active_ids := (get_active_task_definitions s).map (·.id)
  s.instances.filter fun i =>
    decide (i.task_definition_id ∈ active_ids ∧ i.status ≠ STATUS_TERMINATED)

/-- `crud.create_task_instance` with the keyword arguments used by
`_assign_to_next_user` (so `completed_at` is NULL and `allow_reassignment`
takes its column default `True`). -/
def create_task_instance (s : DBState) (task_definition_id assigned_user_id : Nat)
    (assigned_at deadline_repeat deadline_final start_date : Int)
    (status : String) : DBState :=
  { s with
    instances := s.instances ++
      [{ id := s.next_instance_id
         task_definition_id := task_definition_id
         assigned_user_id := assigned_user_id
         assigned_at := assigned_at
         deadline_repeat := deadline_repeat
         deadline_final := deadline_final
         completed_at := none
         status := status
         start_date := start_date
         allow_reassignment := true }]
    next_instance_id := s.next_instance_id + 1 }

/-- `crud.update_task_instance`: update every row with the given primary key
(the keyword arguments of each call site become the field update `f`, which
never touches `id`). -/
def update_task_instance (s : DBState) (instance_id : Nat)
    (f : TaskInstance → TaskInstance) : DBState :=
  { s with instances := s.instances.map fun i => if i.id = instance_id then f i else i }

/-- `crud.create_completion_log`. -/
def create_completion_log (s : DBState) (task_instance_id user_id : Nat)
    (completed_at : Int) (trigger_type : String) : DBState :=
  { s with logs := s.logs ++
      [{ task_instance_id := task_instance_id, user_id := user_id,
         completed_at := completed_at, trigger_type := trigger_type }] }

/-! ## `app/logic/task_manager.py` -/

/-- The `instance.definition` relationship (FK is `nullable=False`; the
default is never reached in the verified scenarios). -/
def defnOf (s : DBState) (i : TaskInstance) : TaskDefinition :=
  (s.definitions.find? fun d => decide (d.id = i.task_definition_id)).getD
    { id := 0, name := "", reproduction_period := 0, pass_over_period := 0,
      actors := [], overdue_behavior := "", start_preferences := [],
      task_days := none, is_active := false }

/-- The `instance.assigned_user.name` relationship access. -/
def userNameOf (s : DBState) (uid : Nat) : String :=
  ((s.users.find? fun u => decide (u.id = uid)).getD { id := 0, name := "" }).name

/-- `TaskManager._generate_start_date`.  The first statement of the source
reads `definition.reproduction_period` from the `definition` parameter
before the `definition = instance.definition` rebinding, so a call that
passes only an instance (the `_reassign_to_user` call site) raises
`AttributeError` on `None`; that crashing outcome is the `none` result.
When an instance is passed, it comes paired with its `instance.definition`
relationship. -/
def generate_start_date (now : Int) (inst : Option (TaskInstance × TaskDefinition))
    (definition : Option TaskDefinition) : Option Int :=
  match definition with
  | none => none
  | some defn =>
    let next_deadline := now + defn.reproduction_period
    match inst with
    | none =>
        let deadline_final := now + defn.pass_over_period
        let end_date := max next_deadline deadline_final
        some (find_start_datetime now defn.start_preferences (some end_date) defn.task_days)
    | some (inst, instDefn) =>
        let deadline_final := inst.deadline_final
        let end_date := max next_deadline deadline_final
        some (find_start_datetime now instDefn.start_preferences (some end_date)
              instDefn.task_days)

/-- `TaskManager._reassign_to_user`.  The keyword arguments are evaluated
before `crud.update_task_instance` runs; `_generate_start_date(instance)`
raises first (see `generate_start_date`), the exception is caught by
`_process_active_instances`, and no row is written. -/
def reassign_to_user (s : DBState) (now : Int) (inst : TaskInstance) : DBState :=
  let definition := defnOf s inst
  match generate_start_date now (some (inst, definition)) none with
  | none => s
  | some sd =>
      update_task_instance s inst.id fun i =>
        { i with status := STATUS_ACTIVE, completed_at := none, assigned_at := now,
                 deadline_repeat := now + definition.reproduction_period,
                 start_date := sd }

/-- The rotation computation at the head of `TaskManager._assign_to_next_user`:
`actors[0]` by default, else the roster successor of the current actor.
(The comma-split actor column is never the empty list in the source —
`"".split(',') == ['']` — so the head default stands for `actors[0]`.) -/
def next_user_name (actors : List String) (current_user_name : Option String) : String :=
  match current_user_name with
  | none => actors.headD ""
  | some cn =>
      match actors.indexOf? cn with
      | none => actors.headD ""
      | some idx => actors.getD ((idx + 1) % actors.length) ""

/-- `TaskManager._assign_to_next_user`.  When the resolved next user is not
in the users table the assignment is skipped; when the next user already has
a non-terminated instance of the definition that row is reused (and
explicitly made non-reassignable), otherwise a fresh row is created. -/
def assign_to_next_user (s : DBState) (now : Int) (definition : TaskDefinition)
    (current_user_name : Option String) : DBState :=
  let nname := next_user_name definition.actors current_user_name
  match get_user_by_name s nname with
  | none => s
  | some next_user =>
    match get_active_task_instance_for_user s definition.id next_user.id with
    | some existing =>
        match generate_start_date now none (some definition) with
        | none => s
        | some sd =>
            update_task_instance s existing.id fun i =>
              { i with assigned_user_id := next_user.id, assigned_at := now,
                       deadline_repeat := now + definition.reproduction_period,
                       deadline_final := now + definition.pass_over_period,
                       status := STATUS_ACTIVE, start_date := sd,
                       allow_reassignment := false }
    | none =>
        match generate_start_date now none (some definition) with
        | none => s
        | some sd =>
            create_task_instance s definition.id next_user.id now
              (now + definition.reproduction_period)
              (now + definition.pass_over_period) sd STATUS_ACTIVE

/-- `TaskManager._check_and_update_instance_state`, the per-instance deadline
state machine, acting on the row with primary key `iid` at instant `now`.
The `inst.completed_at is None` access in the reactivation test and the
crash inside `_reassign_to_user` both leave the state unchanged (exception
caught by the caller before any write). -/
def check_and_update_instance_state (s : DBState) (now : Int) (iid : Nat) : DBState :=
  match s.instances.find? (fun i => decide (i.id = iid)) with
  | none => s
  | some inst =>
    let definition := defnOf s inst
    if inst.status = STATUS_COMPLETED then
      if now > inst.deadline_final then
        let s1 := update_task_instance s inst.id fun i =>
          { i with status := STATUS_TERMINATED }
        let s2 := create_completion_log s1 inst.id inst.assigned_user_id now
          TRIGGER_PASSED_OVER
        if inst.allow_reassignment then
          assign_to_next_user s2 now definition
            (some (userNameOf s inst.assigned_user_id))
        else s2
      else
        match inst.completed_at with
        | none => s
        | some ca =>
            if now > ca + definition.reproduction_period then
              reassign_to_user s now inst
            else s
    else if inst.status = STATUS_ACTIVE ∧ now > inst.deadline_final then
      if definition.overdue_behavior = BEHAVIOR_CHANGE then
        let s1 := update_task_instance s inst.id fun i =>
          { i with status := STATUS_TERMINATED }
        let s2 := create_completion_log s1 inst.id inst.assigned_user_id now
          TRIGGER_PASSED_OVER
        if inst.allow_reassignment then
          assign_to_next_user s2 now definition
            (some (userNameOf s inst.assigned_user_id))
        else s2
      else if definition.overdue_behavior = BEHAVIOR_KEEP_AND_CHANGE then
        let s1 :=
          if inst.allow_reassignment then
            assign_to_next_user s now definition
              (some (userNameOf s inst.assigned_user_id))
          else s
        update_task_instance s1 inst.id fun i =>
          { i with deadline_final := now + definition.pass_over_period,
                   allow_reassignment := false }
      else if definition.overdue_behavior = BEHAVIOR_KEEP then
        update_task_instance s inst.id fun i =>
          { i with deadline_final := now + definition.pass_over_period }
      else s
    else s

/-- The ids of the instances `_process_active_instances` iterates over
(snapshot taken before the loop). -/
def get_all_active_instance_ids (s : DBState) : List Nat :=
  (get_all_active_task_instances s).map (·.id)

/-- One iteration of the `_process_active_instances` loop: skip the instance
when its assigned user has no Google credentials (`credIds` is the set of
user ids that do), else run the state machine on it.  The row is re-read from
the live session, as the ORM does after each commit. -/
def machine_step (now : Int) (credIds : List Nat) (st : DBState) (iid : Nat) : DBState :=
  match st.instances.find? (fun i => decide (i.id = iid)) with
  | none => st
  | some inst =>
      if inst.assigned_user_id ∈ credIds then
        check_and_update_instance_state st now iid
      else st

/-- `TaskManager._process_active_instances`: one full evaluation of the
deadline state machine over the snapshot of active instances. -/
def process_active_instances (s : DBState) (now : Int) (credIds : List Nat) : DBState :=
  (get_all_active_instance_ids s).foldl (machine_step now credIds) s

/-- The repair pick of `_assign_new_tasks`: `sorted(instances, key=deadline_final)[-1]`,
i.e. the last instance (in query order) among those with maximal
`deadline_final` (Python's sort is stable). -/
def lastByDeadline (i0 : TaskInstance) (rest : List TaskInstance) : TaskInstance :=
  rest.foldl (fun acc i => if acc.deadline_final ≤ i.deadline_final then i else acc) i0

/-- The body of the `_assign_new_tasks` loop for one active definition:
create an assignment when it has no non-terminated instance, and re-open
reassignment on the latest-deadline instance when no instance allows it
(`sum(allow_reassignment) > 0` fails exactly when all flags are false). -/
def assign_step (now : Int) (st : DBState) (definition : TaskDefinition) : DBState :=
  match get_active_task_instance_for_definition st definition.id with
  | [] => assign_to_next_user st now definition none
  | i0 :: rest =>
      if (i0 :: rest).all (fun i => i.allow_reassignment = false) then
        update_task_instance st (lastByDeadline i0 rest).id fun i =>
          { i with allow_reassignment := true }
      else st

/-- `TaskManager._assign_new_tasks`. -/
def assign_new_tasks (s : DBState) (now : Int) : DBState :=
  (get_active_task_definitions s).foldl (assign_step now) s

/-- `TaskManager.process_all_tasks`: a full processing cycle. -/
def process_all_tasks (s : DBState) (now : Int) (credIds : List Nat) : DBState :=
  process_active_instances (assign_new_tasks s now) now credIds

/-! ## Properties of the Time-Pattern Resolver -/

/-- A timestamp falls on the given weekday at the given time of day. -/
def matchesPattern (weekday at_time : Nat) (ts : Int) : Prop :=
  ts % 86400 = (at_time : Int) ∧ (ts / 86400) % 7 = (weekday : Int)

instance (w t : Nat) (ts : Int) : Decidable (matchesPattern w t ts) := by
  unfold matchesPattern; infer_instance

lemma rollBackAux_le (e : Int) :
    ∀ (n : Nat) (c : Int), c - e ≤ (n : Int) → rollBackAux e n c ≤ e := by
  intro n
  induction n with
  | zero => intro c hc; simpa [rollBackAux] using by omega
  | succ n ih =>
      intro c hc
      rw [rollBackAux]
      split
      · exact ih (c - 604800) (by push_cast at hc ⊢; omega)
      · omega

lemma rollBack_le (e c : Int) : rollBack e c ≤ e := by
  refine rollBackAux_le e _ c ?_
  have := Int.self_le_toNat (c - e)
  omega

/-- The claim that `nextOccurrenceAfter` returns the smallest matching
timestamp greater than or equal to `moment` (and `moment` itself on an exact
hit) is false: at a moment that matches the pattern exactly, the `candidate
<= moment` roll-forward of the source returns the occurrence one week later. -/
theorem next_occurrence_after_exact_hit_not_fixed :
    matchesPattern 0 0 (0 : Int) ∧ next_occurrence_after 0 0 0 = 604800 := by
  constructor
  · constructor <;> decide
  · decide

/-- C7 (amended): for every moment, weekday and time of day,
`nextOccurrenceAfter` returns the smallest timestamp strictly greater than
`moment` that falls on that weekday and time; in particular, when `moment`
itself matches exactly, the result is `moment` plus seven days, not
`moment`. -/
theorem next_occurrence_after_correct (moment : Int) (w t : Nat)
    (hw : w < 7) (ht : t < 86400) :
    moment < next_occurrence_after moment w t ∧
    matchesPattern w t (next_occurrence_after moment w t) ∧
    ∀ x : Int, moment < x → matchesPattern w t x → next_occurrence_after moment w t ≤ x := by
  unfold next_occurrence_after combine dateOf weekdayOf matchesPattern
  dsimp only
  refine ⟨?_, ⟨?_, ?_⟩, ?_⟩
  · split <;> omega
  · split <;> omega
  · split <;> omega
  · intro x hx hmx
    obtain ⟨hx1, hx2⟩ := hmx
    split <;> omega

/-- Witness for `next_occurrence_after_correct` at `moment = 1`,
`weekday = 0`, `time = 0`. -/
theorem next_occurrence_after_correct_witness :
    (1 : Int) < next_occurrence_after 1 0 0 ∧
    matchesPattern 0 0 (next_occurrence_after 1 0 0) :=
  ⟨(next_occurrence_after_correct 1 0 0 (by decide) (by decide)).1,
   (next_occurrence_after_correct 1 0 0 (by decide) (by decide)).2.1⟩

lemma foldl_min_mem (c : Int) (cs : List Int) : cs.foldl min c ∈ c :: cs := by
  induction cs generalizing c with
  | nil => simp
  | cons a as ih =>
      have h := ih (min c a)
      rcases min_choice c a with hm | hm <;>
        simp only [List.foldl_cons] <;> rcases List.mem_cons.mp h with h1 | h1 <;>
        simp [h1, hm] at * <;> tauto

lemma foldl_min_le (c : Int) (cs : List Int) :
    ∀ x ∈ c :: cs, cs.foldl min c ≤ x := by
  induction cs generalizing c with
  | nil => intro x hx; simp at hx; simp [hx]
  | cons a as ih =>
      intro x hx
      have h1 : ∀ y ∈ min c a :: as, as.foldl min (min c a) ≤ y := ih (min c a)
      have hmc : as.foldl min (min c a) ≤ min c a := h1 _ (by simp)
      rcases List.mem_cons.mp hx with rfl | hx1
      · exact le_trans hmc (min_le_left _ _)
      · rcases List.mem_cons.mp hx1 with rfl | hx2
        · exact le_trans hmc (min_le_right _ _)
        · exact h1 _ (List.mem_cons_of_mem _ hx2)

lemma next_occurrence_after_midnight_ge (now : Int) (d : Nat) :
    86400 * (now / 86400 + 1) ≤ next_occurrence_after now d 0 := by
  unfold next_occurrence_after combine dateOf weekdayOf
  dsimp only
  split <;> omega

lemma next_occurrence_after_midnight_succ (now : Int) (d : Nat)
    (h : ((d : Int) - (now / 86400) % 7) % 7 = 1) :
    next_occurrence_after now d 0 = 86400 * (now / 86400 + 1) := by
  unfold next_occurrence_after combine dateOf weekdayOf
  dsimp only
  split <;> omega

/-- C9 (counterexample): with an empty preference list and no deadline the
resolver does not return `now`; at `now = 1000` it returns the next midnight
`86400`. -/
theorem find_start_datetime_no_prefs_not_now :
    find_start_datetime 1000 [] none none = 86400 ∧
    find_start_datetime 1000 [] none none ≠ 1000 := by
  constructor <;> decide

/-- C9 (amended): with zero usable preferences and no `endDate`/`leadDays`,
`findStartDateTime` does not return `now`: `buildPatterns` canonicalizes the
empty preference list to a midnight pattern on all seven days, so the
resolver returns the first midnight strictly after `now` (still without
raising an error). -/
theorem find_start_datetime_no_prefs (now : Int) :
    find_start_datetime now [] none none = 86400 * (now / 86400 + 1) := by
  have hred : find_start_datetime now [] none none =
      [next_occurrence_after now 1 0, next_occurrence_after now 2 0,
       next_occurrence_after now 3 0, next_occurrence_after now 4 0,
       next_occurrence_after now 5 0,
       next_occurrence_after now 6 0].foldl min (next_occurrence_after now 0 0) := rfl
  rw [hred]
  set L := [next_occurrence_after now 1 0, next_occurrence_after now 2 0,
       next_occurrence_after now 3 0, next_occurrence_after now 4 0,
       next_occurrence_after now 5 0, next_occurrence_after now 6 0] with hL
  have hub : ∀ x ∈ next_occurrence_after now 0 0 :: L,
      86400 * (now / 86400 + 1) ≤ x := by
    intro x hx
    simp only [hL, List.mem_cons, List.not_mem_nil, or_false] at hx
    rcases hx with rfl | rfl | rfl | rfl | rfl | rfl | rfl <;>
      exact next_occurrence_after_midnight_ge now _
  have hmem := foldl_min_mem (next_occurrence_after now 0 0) L
  have hge : 86400 * (now / 86400 + 1) ≤ L.foldl min (next_occurrence_after now 0 0) :=
    hub _ hmem
  have hdw : (now / 86400) % 7 = 0 ∨ (now / 86400) % 7 = 1 ∨ (now / 86400) % 7 = 2 ∨
      (now / 86400) % 7 = 3 ∨ (now / 86400) % 7 = 4 ∨ (now / 86400) % 7 = 5 ∨
      (now / 86400) % 7 = 6 := by omega
  have hle : L.foldl min (next_occurrence_after now 0 0) ≤ 86400 * (now / 86400 + 1) := by
    rcases hdw with h | h | h | h | h | h | h
    · have := next_occurrence_after_midnight_succ now 1 (by omega)
      calc L.foldl min (next_occurrence_after now 0 0) ≤ next_occurrence_after now 1 0 :=
            foldl_min_le _ _ _ (by simp [hL])
        _ = _ := this
    · have := next_occurrence_after_midnight_succ now 2 (by omega)
      calc L.foldl min (next_occurrence_after now 0 0) ≤ next_occurrence_after now 2 0 :=
            foldl_min_le _ _ _ (by simp [hL])
        _ = _ := this
    · have := next_occurrence_after_midnight_succ now 3 (by omega)
      calc L.foldl min (next_occurrence_after now 0 0) ≤ next_occurrence_after now 3 0 :=
            foldl_min_le _ _ _ (by simp [hL])
        _ = _ := this
    · have := next_occurrence_after_midnight_succ now 4 (by omega)
      calc L.foldl min (next_occurrence_after now 0 0) ≤ next_occurrence_after now 4 0 :=
            foldl_min_le _ _ _ (by simp [hL])
        _ = _ := this
    · have := next_occurrence_after_midnight_succ now 5 (by omega)
      calc L.foldl min (next_occurrence_after now 0 0) ≤ next_occurrence_after now 5 0 :=
            foldl_min_le _ _ _ (by simp [hL])
        _ = _ := this
    · have := next_occurrence_after_midnight_succ now 6 (by omega)
      calc L.foldl min (next_occurrence_after now 0 0) ≤ next_occurrence_after now 6 0 :=
            foldl_min_le _ _ _ (by simp [hL])
        _ = _ := this
    · have := next_occurrence_after_midnight_succ now 0 (by omega)
      calc L.foldl min (next_occurrence_after now 0 0) ≤ next_occurrence_after now 0 0 :=
            foldl_min_le _ _ _ (by simp)
        _ = _ := this
  omega

lemma bestStep_bound (e target : Int) (acc : Option (Int × Int)) (p : Nat × Nat)
    (h : ∀ q : Int × Int, acc = some q → q.1 ≤ e) :
    ∀ q : Int × Int, bestStep e target acc p = some q → q.1 ≤ e := by
  intro q hq
  unfold bestStep at hq
  dsimp only at hq
  rcases acc with _ | ⟨bd, bs⟩
  · cases hq
    exact rollBack_le _ _
  · rw [show (match some (bd, bs) with
        | none => some (rollBack e (nearest_occurrence_to target p.1 p.2).1,
            |rollBack e (nearest_occurrence_to target p.1 p.2).1 - target|)
        | some (bd, bs) =>
          if |rollBack e (nearest_occurrence_to target p.1 p.2).1 - target| < bs ∨
             (|rollBack e (nearest_occurrence_to target p.1 p.2).1 - target| = bs ∧
              rollBack e (nearest_occurrence_to target p.1 p.2).1 < bd) then
            some (rollBack e (nearest_occurrence_to target p.1 p.2).1,
              |rollBack e (nearest_occurrence_to target p.1 p.2).1 - target|)
          else some (bd, bs)) =
        if |rollBack e (nearest_occurrence_to target p.1 p.2).1 - target| < bs ∨
           (|rollBack e (nearest_occurrence_to target p.1 p.2).1 - target| = bs ∧
            rollBack e (nearest_occurrence_to target p.1 p.2).1 < bd) then
          some (rollBack e (nearest_occurrence_to target p.1 p.2).1,
            |rollBack e (nearest_occurrence_to target p.1 p.2).1 - target|)
        else some (bd, bs) from rfl] at hq
    split at hq
    · cases hq
      exact rollBack_le _ _
    · cases hq
      exact h _ rfl

lemma bestStep_isSome (e target : Int) (acc : Option (Int × Int)) (p : Nat × Nat) :
    (bestStep e target acc p).isSome := by
  unfold bestStep
  rcases acc with _ | ⟨bd, bs⟩
  · rfl
  · dsimp only
    split <;> rfl

lemma foldl_bestStep_isSome (e target : Int) (l : List (Nat × Nat)) :
    ∀ acc : Option (Int × Int), acc.isSome ∨ l ≠ [] →
      (l.foldl (bestStep e target) acc).isSome := by
  induction l with
  | nil =>
      intro acc h
      rcases h with h | h
      · simpa using h
      · simp at h
  | cons p l2 ih =>
      intro acc _
      exact ih (bestStep e target acc p) (Or.inl (bestStep_isSome e target acc p))

lemma foldl_bestStep_bound (e target : Int) (l : List (Nat × Nat)) :
    ∀ acc : Option (Int × Int), (∀ q : Int × Int, acc = some q → q.1 ≤ e) →
      ∀ q : Int × Int, l.foldl (bestStep e target) acc = some q → q.1 ≤ e := by
  induction l with
  | nil => intro acc h q hq; exact h q hq
  | cons p l2 ih =>
      intro acc h q hq
      exact ih (bestStep e target acc p) (bestStep_bound e target acc p h) q hq

lemma build_patterns_ne_nil (prefs : List Pref) : build_patterns prefs ≠ [] := by
  unfold build_patterns
  dsimp only
  split
  · rename_i hempty
    rcases htimes : prefs.filterMap prefTimeOnly with _ | ⟨t0, ts⟩
    · simp
    · intro hcontra
      have hmem : ((0 : Nat), t0) ∈ (List.range 7).flatMap
          fun d => (t0 :: ts).map fun t => (d, t) := by
        refine List.mem_flatMap.mpr ⟨0, by simp, ?_⟩
        simp
      dsimp only at hcontra
      rw [hcontra] at hmem
      simp at hmem
  · rename_i hne
    rcases hdt : prefs.filterMap prefDayTime with _ | ⟨p0, dts⟩
    · rcases hdo : prefs.filterMap prefDayOnly with _ | ⟨d0, dos⟩
      · exact absurd ⟨by simp [hdt], by simp [hdo]⟩ hne
      · intro hcontra
        rcases List.append_eq_nil.mp (List.append_eq_nil.mp hcontra).1 with ⟨_, h2⟩
        simp at h2
    · intro hcontra
      simp at hcontra

/-- C8: whenever both `endDate` and `leadDays` are supplied, the start
timestamp computed by `findStartDateTime` never exceeds `endDate`: every
candidate occurrence is rolled backward in 7-day steps until it is at most
`endDate`, and the canonical pattern set is never empty, so the returned
best candidate obeys the bound. -/
theorem find_start_datetime_le_end_date (now : Int) (prefs : List Pref) (e nb : Int) :
    find_start_datetime now prefs (some e) (some nb) ≤ e := by
  have hsome : ((build_patterns prefs).foldl (bestStep e (e - nb * 86400)) none).isSome :=
    foldl_bestStep_isSome e (e - nb * 86400) (build_patterns prefs) none
      (Or.inr (build_patterns_ne_nil prefs))
  rcases hfold : (build_patterns prefs).foldl (bestStep e (e - nb * 86400)) none with
      _ | ⟨bd, bs⟩
  · rw [hfold] at hsome
    simp at hsome
  · have hbd : bd ≤ e :=
      foldl_bestStep_bound e (e - nb * 86400) (build_patterns prefs) none
        (by intro q hq; cases hq) (bd, bs) hfold
    show (match (build_patterns prefs).foldl (bestStep e (e - nb * 86400)) none with
          | some (bd, _) => bd
          | none =>
              match (build_patterns prefs).map
                  (fun p => next_occurrence_after now p.1 p.2) with
              | [] => now
              | c :: cs => cs.foldl min c) ≤ e
    rw [hfold]
    exact hbd

/-! ## Generic facts about the repository operations -/

lemma generate_some (now : Int) (defn : TaskDefinition) :
    generate_start_date now none (some defn) =
      some (find_start_datetime now defn.start_preferences
        (some (max (now + defn.reproduction_period) (now + defn.pass_over_period)))
        defn.task_days) := rfl

lemma generate_none (now : Int) (x : Option (TaskInstance × TaskDefinition)) :
    generate_start_date now x none = none := rfl

lemma find?_map_update (l : List TaskInstance) (iid : Nat) (f : TaskInstance → TaskInstance)
    (hf : ∀ x, (f x).id = x.id) :
    ((l.map fun i => if i.id = iid then f i else i).find? fun i => decide (i.id = iid)) =
      (l.find? fun i => decide (i.id = iid)).map f := by
  induction l with
  | nil => simp
  | cons a l ih =>
      by_cases ha : a.id = iid
      · simp only [List.map_cons, if_pos ha]
        rw [List.find?_cons_of_pos _ (by simp [hf a, ha]),
            List.find?_cons_of_pos _ (by simp [ha])]
        simp
      · simp only [List.map_cons, if_neg ha]
        rw [List.find?_cons_of_neg _ (by simp [ha]),
            List.find?_cons_of_neg _ (by simp [ha])]
        exact ih

lemma mem_update_instances (s : DBState) (iid : Nat) (f : TaskInstance → TaskInstance)
    (i' : TaskInstance) :
    i' ∈ (update_task_instance s iid f).instances ↔
      ∃ j ∈ s.instances, i' = if j.id = iid then f j else j := by
  unfold update_task_instance
  simp only [List.mem_map]
  constructor
  · rintro ⟨j, hj, rfl⟩; exact ⟨j, hj, rfl⟩
  · rintro ⟨j, hj, rfl⟩; exact ⟨j, hj, rfl⟩

lemma id_unique (l : List TaskInstance) (hnd : (l.map (·.id)).Nodup)
    (i j : TaskInstance) (hi : i ∈ l) (hj : j ∈ l) (hij : i.id = j.id) : i = j := by
  induction l with
  | nil => cases hi
  | cons a l ih =>
      rw [List.map_cons, List.nodup_cons] at hnd
      have h1 : ∀ x ∈ l, ¬ x.id = a.id := by
        intro x hx hxe
        exact hnd.1 (hxe ▸ List.mem_map_of_mem (fun y => y.id) hx)
      rcases List.mem_cons.mp hi with rfl | hi1
      · rcases List.mem_cons.mp hj with rfl | hj1
        · rfl
        · exact absurd hij.symm (h1 j hj1)
      · rcases List.mem_cons.mp hj with rfl | hj1
        · exact absurd hij (h1 i hi1)
        · exact ih hnd.2 hi1 hj1

lemma find?_eq_some_of_mem (l : List TaskInstance) (hnd : (l.map (·.id)).Nodup)
    (i : TaskInstance) (hi : i ∈ l) :
    (l.find? fun x => decide (x.id = i.id)) = some i := by
  rcases hfind : l.find? fun x => decide (x.id = i.id) with _ | j
  · have := List.find?_eq_none.mp hfind i hi
    simp at this
  · have hj : j ∈ l := List.mem_of_find?_eq_some hfind
    have hjid : j.id = i.id := by
      have := List.find?_some hfind
      simpa using this
    rw [hfind]
    exact congrArg some (id_unique l hnd j i hj hi hjid)

lemma status_active_ne_completed : STATUS_ACTIVE ≠ STATUS_COMPLETED := by decide
lemma active_ne_terminated : STATUS_ACTIVE ≠ STATUS_TERMINATED := by decide
lemma keep_ne_change : BEHAVIOR_KEEP ≠ BEHAVIOR_CHANGE := by decide
lemma keep_ne_kac : BEHAVIOR_KEEP ≠ BEHAVIOR_KEEP_AND_CHANGE := by decide

/-! ## C5: Keep-behavior frame -/

/-- C5: for an Active instance past its final deadline whose definition has
overdue behavior Keep, evaluating the state machine only rewrites
`deadline_final` to `now + pass_over_period`: the instance keeps its status,
actor, `allow_reassignment`, `assigned_at`, `deadline_repeat`, `completed_at`
and `start_date` (visible in the updated record), no completion-log entry is
appended, no new instance is created, and every other instance is untouched. -/
theorem keep_behavior_frame (s : DBState) (now : Int) (inst : TaskInstance)
    (hfind : (s.instances.find? fun i => decide (i.id = inst.id)) = some inst)
    (hact : inst.status = STATUS_ACTIVE)
    (hov : now > inst.deadline_final)
    (hbeh : (defnOf s inst).overdue_behavior = BEHAVIOR_KEEP) :
    check_and_update_instance_state s now inst.id =
      update_task_instance s inst.id
        (fun i => { i with deadline_final := now + (defnOf s inst).pass_over_period }) ∧
    ((check_and_update_instance_state s now inst.id).instances.find?
        fun i => decide (i.id = inst.id)) =
      some { inst with deadline_final := now + (defnOf s inst).pass_over_period } ∧
    (check_and_update_instance_state s now inst.id).logs = s.logs ∧
    (check_and_update_instance_state s now inst.id).next_instance_id =
      s.next_instance_id ∧
    (check_and_update_instance_state s now inst.id).instances.length =
      s.instances.length ∧
    ∀ j ∈ s.instances, j.id ≠ inst.id →
      j ∈ (check_and_update_instance_state s now inst.id).instances := by
  have hnc : ¬ inst.status = STATUS_COMPLETED := by
    rw [hact]; exact status_active_ne_completed
  have hb1 : ¬ (defnOf s inst).overdue_behavior = BEHAVIOR_CHANGE := by
    rw [hbeh]; exact keep_ne_change
  have hb2 : ¬ (defnOf s inst).overdue_behavior = BEHAVIOR_KEEP_AND_CHANGE := by
    rw [hbeh]; exact keep_ne_kac
  have heq : check_and_update_instance_state s now inst.id =
      update_task_instance s inst.id
        (fun i => { i with deadline_final := now + (defnOf s inst).pass_over_period }) := by
    unfold check_and_update_instance_state
    rw [hfind]
    dsimp only
    rw [if_neg hnc, if_pos (And.intro hact hov), if_neg hb1, if_neg hb2, if_pos hbeh]
  refine ⟨heq, ?_, ?_, ?_, ?_, ?_⟩
  · rw [heq]
    show ((s.instances.map fun i =>
        if i.id = inst.id then
          { i with deadline_final := now + (defnOf s inst).pass_over_period }
        else i).find? fun i => decide (i.id = inst.id)) = _
    rw [find?_map_update s.instances inst.id
          (fun i => { i with deadline_final := now + (defnOf s inst).pass_over_period })
          (fun x => rfl), hfind]
    rfl
  · rw [heq]; rfl
  · rw [heq]; rfl
  · rw [heq]
    show (s.instances.map fun i =>
        if i.id = inst.id then
          { i with deadline_final := now + (defnOf s inst).pass_over_period }
        else i).length = s.instances.length
    simp
  · intro j hj hne
    rw [heq]
    exact (mem_update_instances s inst.id _ j).mpr ⟨j, hj, by rw [if_neg hne]⟩

/-- Witness for `keep_behavior_frame`: a concrete overdue Keep instance. -/
def keepState : DBState :=
  { users := [{ id := 1, name := "A" }]
    definitions := [{ id := 1, name := "D", reproduction_period := 100,
                      pass_over_period := 100, actors := ["A"],
                      overdue_behavior := BEHAVIOR_KEEP,
                      start_preferences := [],
                      task_days := some 0, is_active := true }]
    instances := [{ id := 1, task_definition_id := 1, assigned_user_id := 1,
                    assigned_at := -10, deadline_repeat := 0, deadline_final := -1,
                    completed_at := none, status := STATUS_ACTIVE, start_date := 0,
                    allow_reassignment := true }]
    logs := [], next_instance_id := 2 }

/-- The instance of `keepState`. -/
def keepInst : TaskInstance :=
  { id := 1, task_definition_id := 1, assigned_user_id := 1,
    assigned_at := -10, deadline_repeat := 0, deadline_final := -1,
    completed_at := none, status := STATUS_ACTIVE, start_date := 0,
    allow_reassignment := true }

theorem keep_behavior_frame_witness :
    (check_and_update_instance_state keepState 0 keepInst.id).logs = keepState.logs ∧
    (check_and_update_instance_state keepState 0 keepInst.id).instances.length =
      keepState.instances.length :=
  ⟨(keep_behavior_frame keepState 0 keepInst (by decide) (by decide) (by decide)
      (by decide)).2.2.1,
   (keep_behavior_frame keepState 0 keepInst (by decide) (by decide) (by decide)
      (by decide)).2.2.2.2.1⟩

/-! ## The state machine's fixed points -/

/-- Condition under which `_check_and_update_instance_state` leaves the state
untouched.  A Completed instance inside its final deadline is always a fixed
point — even when its reactivation time has been reached — because the
reactivation path crashes in `_generate_start_date` before writing (see
`generate_start_date`). -/
def noopCond (s : DBState) (now : Int) (i : TaskInstance) : Prop :=
  (i.status = STATUS_COMPLETED → now ≤ i.deadline_final) ∧
  (i.status = STATUS_ACTIVE → now > i.deadline_final →
    ((defnOf s i).overdue_behavior ≠ BEHAVIOR_CHANGE ∧
     (defnOf s i).overdue_behavior ≠ BEHAVIOR_KEEP_AND_CHANGE ∧
     (defnOf s i).overdue_behavior ≠ BEHAVIOR_KEEP))

lemma check_noop (s : DBState) (now : Int) (iid : Nat)
    (h : ∀ i, (s.instances.find? fun x => decide (x.id = iid)) = some i →
      noopCond s now i) :
    check_and_update_instance_state s now iid = s := by
  unfold check_and_update_instance_state
  rcases hfind : s.instances.find? fun x => decide (x.id = iid) with _ | i
  · rw [hfind]
  · specialize h i hfind
    rw [hfind]
    dsimp only
    by_cases hc : i.status = STATUS_COMPLETED
    · rw [if_pos hc]
      have hle := h.1 hc
      rw [if_neg (by omega : ¬ now > i.deadline_final)]
      rcases hca : i.completed_at with _ | ca
      · rfl
      · dsimp only
        split
        · unfold reassign_to_user
          rfl
        · rfl
    · rw [if_neg hc]
      by_cases hao : i.status = STATUS_ACTIVE ∧ now > i.deadline_final
      · rw [if_pos hao]
        obtain ⟨h1, h2, h3⟩ := h.2 hao.1 hao.2
        rw [if_neg h1, if_neg h2, if_neg h3]
      · rw [if_neg hao]

/-! ## C6: the Completed-instance reactivation path -/

/-- A Completed instance inside its final deadline whose reactivation time
has been reached: `now = 200`, `completed_at = 0`, `reproduction_period = 100`,
`deadline_final = 1000`. -/
def reactState : DBState :=
  { users := [{ id := 1, name := "A" }]
    definitions := [{ id := 1, name := "D", reproduction_period := 100,
                      pass_over_period := 100, actors := ["A"],
                      overdue_behavior := BEHAVIOR_KEEP,
                      start_preferences := [],
                      task_days := some 0, is_active := true }]
    instances := [{ id := 1, task_definition_id := 1, assigned_user_id := 1,
                    assigned_at := -10, deadline_repeat := 0, deadline_final := 1000,
                    completed_at := some 0, status := STATUS_COMPLETED, start_date := 0,
                    allow_reassignment := true }]
    logs := [], next_instance_id := 2 }

/-- The instance of `reactState`. -/
def reactInst : TaskInstance :=
  { id := 1, task_definition_id := 1, assigned_user_id := 1,
    assigned_at := -10, deadline_repeat := 0, deadline_final := 1000,
    completed_at := some 0, status := STATUS_COMPLETED, start_date := 0,
    allow_reassignment := true }

/-- C6: the claimed reactivation never happens.  At a concrete input that
satisfies all the claim's premises (Completed, `now ≤ deadline_final`,
`now > completed_at + reproduction_period`), evaluating the state machine
leaves the repository unchanged — the instance stays Completed instead of
being reset to Active — because `_reassign_to_user` calls
`_generate_start_date(instance)` whose first statement dereferences the
absent `definition` parameter, raising `AttributeError` before any write. -/
theorem completed_reactivation_bug :
    reactInst.status = STATUS_COMPLETED ∧
    reactInst.completed_at = some 0 ∧
    (200 : Int) ≤ reactInst.deadline_final ∧
    (200 : Int) > 0 + (defnOf reactState reactInst).reproduction_period ∧
    check_and_update_instance_state reactState 200 reactInst.id = reactState := by
  refine ⟨rfl, rfl, by decide, by decide, by decide⟩

/-! ## C10: reassignability of fresh vs reused assignments -/

lemma assign_reuse_eq (s : DBState) (now : Int) (defn : TaskDefinition)
    (cur : Option String) (nu : User) (ex : TaskInstance)
    (hu : get_user_by_name s (next_user_name defn.actors cur) = some nu)
    (hex : get_active_task_instance_for_user s defn.id nu.id = some ex) :
    assign_to_next_user s now defn cur =
      update_task_instance s ex.id (fun i =>
        { i with assigned_user_id := nu.id, assigned_at := now,
                 deadline_repeat := now + defn.reproduction_period,
                 deadline_final := now + defn.pass_over_period,
                 status := STATUS_ACTIVE,
                 start_date := find_start_datetime now defn.start_preferences
                   (some (max (now + defn.reproduction_period)
                     (now + defn.pass_over_period))) defn.task_days,
                 allow_reassignment := false }) := by
  unfold assign_to_next_user
  dsimp only
  rw [hu]
  dsimp only
  rw [hex]
  dsimp only
  rw [generate_some]

lemma assign_create_eq (s : DBState) (now : Int) (defn : TaskDefinition)
    (cur : Option String) (nu : User)
    (hu : get_user_by_name s (next_user_name defn.actors cur) = some nu)
    (hnone : get_active_task_instance_for_user s defn.id nu.id = none) :
    assign_to_next_user s now defn cur =
      create_task_instance s defn.id nu.id now (now + defn.reproduction_period)
        (now + defn.pass_over_period)
        (find_start_datetime now defn.start_preferences
          (some (max (now + defn.reproduction_period)
            (now + defn.pass_over_period))) defn.task_days)
        STATUS_ACTIVE := by
  unfold assign_to_next_user
  dsimp only
  rw [hu]
  dsimp only
  rw [hnone]
  dsimp only
  rw [generate_some]

/-- C10: when the rotation advances, a brand-new instance for the next actor
is created with the model default `allow_reassignment = true` (the creation
keyword arguments never override it), while a reused non-terminated instance
of the next actor is explicitly set to `allow_reassignment = false`. -/
theorem assign_to_next_user_reassignment_asymmetry
    (s : DBState) (now : Int) (defn : TaskDefinition) (cur : Option String)
    (nu : User)
    (hu : get_user_by_name s (next_user_name defn.actors cur) = some nu) :
    (∀ ex, get_active_task_instance_for_user s defn.id nu.id = some ex →
      ∀ i ∈ (assign_to_next_user s now defn cur).instances,
        i.id = ex.id → i.allow_reassignment = false) ∧
    (get_active_task_instance_for_user s defn.id nu.id = none →
      ∃ i ∈ (assign_to_next_user s now defn cur).instances,
        i.id = s.next_instance_id ∧ i.allow_reassignment = true ∧
        i.status = STATUS_ACTIVE ∧ i.task_definition_id = defn.id ∧
        i.assigned_user_id = nu.id) := by
  constructor
  · intro ex hex i hi hid
    rw [assign_reuse_eq s now defn cur nu ex hu hex] at hi
    rcases (mem_update_instances _ _ _ _).mp hi with ⟨j, hj, rfl⟩
    by_cases hje : j.id = ex.id
    · rw [if_pos hje]
    · rw [if_neg hje] at hid ⊢
      exact absurd hid hje
  · intro hnone
    rw [assign_create_eq s now defn cur nu hu hnone]
    refine ⟨{ id := s.next_instance_id, task_definition_id := defn.id,
              assigned_user_id := nu.id, assigned_at := now,
              deadline_repeat := now + defn.reproduction_period,
              deadline_final := now + defn.pass_over_period, completed_at := none,
              status := STATUS_ACTIVE,
              start_date := find_start_datetime now defn.start_preferences
                (some (max (now + defn.reproduction_period)
                  (now + defn.pass_over_period))) defn.task_days,
              allow_reassignment := true }, ?_, rfl, rfl, rfl, rfl, rfl⟩
    unfold create_task_instance
    simp

/-- Witness state for the asymmetry theorem: roster `[A, B]`, current actor
`A`, next actor `B` registered with no existing instance. -/
def asymState : DBState :=
  { users := [{ id := 1, name := "A" }, { id := 2, name := "B" }]
    definitions := [{ id := 1, name := "D", reproduction_period := 100,
                      pass_over_period := 100, actors := ["A", "B"],
                      overdue_behavior := BEHAVIOR_CHANGE,
                      start_preferences := [],
                      task_days := some 0, is_active := true }]
    instances := [], logs := [], next_instance_id := 7 }

/-- The definition row of `asymState`. -/
def asymDefn : TaskDefinition :=
  { id := 1, name := "D", reproduction_period := 100,
    pass_over_period := 100, actors := ["A", "B"],
    overdue_behavior := BEHAVIOR_CHANGE, start_preferences := [],
    task_days := some 0, is_active := true }

theorem assign_to_next_user_reassignment_asymmetry_witness :
    ∃ i ∈ (assign_to_next_user asymState 0 asymDefn (some ("A"))).instances,
      i.id = asymState.next_instance_id ∧ i.allow_reassignment = true ∧
      i.status = STATUS_ACTIVE ∧ i.task_definition_id = asymDefn.id ∧
      i.assigned_user_id = 2 :=
  (assign_to_next_user_reassignment_asymmetry asymState 0 asymDefn (some ("A"))
    { id := 2, name := "B" } (by decide)).2 (by decide)

/-! ## C3: Change-behavior transition -/

lemma find?_append_some {α : Type} (p : α → Bool) (l1 l2 : List α) (a : α)
    (h : l1.find? p = some a) : (l1 ++ l2).find? p = some a := by
  induction l1 with
  | nil => cases h
  | cons x l1 ih =>
      by_cases hx : p x
      · rw [List.find?_cons_of_pos _ hx] at h
        rw [List.cons_append, List.find?_cons_of_pos _ hx]
        exact h
      · rw [List.find?_cons_of_neg _ hx] at h
        rw [List.cons_append, List.find?_cons_of_neg _ hx]
        exact ih h

lemma find?_map_update_ne (l : List TaskInstance) (iid1 iid2 : Nat)
    (f : TaskInstance → TaskInstance) (hf : ∀ x, (f x).id = x.id) (hne : iid1 ≠ iid2) :
    ((l.map fun i => if i.id = iid2 then f i else i).find? fun i => decide (i.id = iid1)) =
      l.find? fun i => decide (i.id = iid1) := by
  induction l with
  | nil => rfl
  | cons a l ih =>
      by_cases ha2 : a.id = iid2
      · have hfa : (f a).id = a.id := hf a
        have hna : ¬ a.id = iid1 := by omega
        simp only [List.map_cons, if_pos ha2]
        rw [List.find?_cons_of_neg _ (by simp [hfa, hna]),
            List.find?_cons_of_neg _ (by simp [hna])]
        exact ih
      · simp only [List.map_cons, if_neg ha2]
        by_cases ha1 : a.id = iid1
        · rw [List.find?_cons_of_pos _ (by simp [ha1]),
              List.find?_cons_of_pos _ (by simp [ha1])]
        · rw [List.find?_cons_of_neg _ (by simp [ha1]),
              List.find?_cons_of_neg _ (by simp [ha1])]
          exact ih

lemma map_update_ids (l : List TaskInstance) (iid : Nat)
    (f : TaskInstance → TaskInstance) (hf : ∀ x, (f x).id = x.id) :
    (l.map fun i => if i.id = iid then f i else i).map (fun i => i.id) =
      l.map (fun i => i.id) := by
  rw [List.map_map]
  refine List.map_congr_left ?_
  intro a _
  by_cases ha : a.id = iid
  · simp [ha, hf a]
  · simp [ha]

lemma check_change_eq (s : DBState) (now : Int) (inst : TaskInstance)
    (hfind : (s.instances.find? fun i => decide (i.id = inst.id)) = some inst)
    (hact : inst.status = STATUS_ACTIVE)
    (hov : now > inst.deadline_final)
    (hbeh : (defnOf s inst).overdue_behavior = BEHAVIOR_CHANGE) :
    check_and_update_instance_state s now inst.id =
      (if inst.allow_reassignment then
        assign_to_next_user
          (create_completion_log
            (update_task_instance s inst.id fun i => { i with status := STATUS_TERMINATED })
            inst.id inst.assigned_user_id now TRIGGER_PASSED_OVER)
          now (defnOf s inst) (some (userNameOf s inst.assigned_user_id))
      else
        create_completion_log
          (update_task_instance s inst.id fun i => { i with status := STATUS_TERMINATED })
          inst.id inst.assigned_user_id now TRIGGER_PASSED_OVER) := by
  have hnc : ¬ inst.status = STATUS_COMPLETED := by
    rw [hact]; exact status_active_ne_completed
  unfold check_and_update_instance_state
  rw [hfind]
  dsimp only
  rw [if_neg hnc, if_pos (And.intro hact hov), if_pos hbeh]

lemma find?_pred_user (s : DBState) (defId uid : Nat) (ex : TaskInstance)
    (hex : get_active_task_instance_for_user s defId uid = some ex) :
    ex ∈ s.instances ∧ ex.task_definition_id = defId ∧
    ex.status ≠ STATUS_TERMINATED ∧ ex.assigned_user_id = uid := by
  refine ⟨List.mem_of_find?_eq_some hex, ?_⟩
  have := List.find?_some hex
  simpa using this

/-- C3: evaluating the state machine on an Active instance past its final
deadline whose definition has overdue behavior Change terminates the
instance, appends exactly one completion-log entry with trigger PassedOver,
and — when the instance was reassignable and the next actor of the roster is
a registered user — leaves a new or reused Active instance assigned to that
next actor. -/
theorem change_behavior_transition
    (s : DBState) (now : Int) (inst : TaskInstance) (nu : User)
    (hnd : (s.instances.map (fun i => i.id)).Nodup)
    (hfind : (s.instances.find? fun i => decide (i.id = inst.id)) = some inst)
    (hact : inst.status = STATUS_ACTIVE)
    (hov : now > inst.deadline_final)
    (hbeh : (defnOf s inst).overdue_behavior = BEHAVIOR_CHANGE)
    (hu : get_user_by_name s (next_user_name (defnOf s inst).actors
            (some (userNameOf s inst.assigned_user_id))) = some nu) :
    ((check_and_update_instance_state s now inst.id).instances.find?
        fun i => decide (i.id = inst.id)) =
      some { inst with status := STATUS_TERMINATED } ∧
    (check_and_update_instance_state s now inst.id).logs =
      s.logs ++ [{ task_instance_id := inst.id, user_id := inst.assigned_user_id,
                   completed_at := now, trigger_type := TRIGGER_PASSED_OVER }] ∧
    (inst.allow_reassignment = true →
      ∃ j ∈ (check_and_update_instance_state s now inst.id).instances,
        j.task_definition_id = (defnOf s inst).id ∧ j.status = STATUS_ACTIVE ∧
        j.assigned_user_id = nu.id) := by
  have heq := check_change_eq s now inst hfind hact hov hbeh
  set termF : TaskInstance → TaskInstance :=
    fun i => { i with status := STATUS_TERMINATED } with htermF
  set s2 : DBState := create_completion_log
      (update_task_instance s inst.id termF)
      inst.id inst.assigned_user_id now TRIGGER_PASSED_OVER with hs2
  have hs2inst : s2.instances = s.instances.map fun i =>
      if i.id = inst.id then termF i else i := rfl
  have hs2find : (s2.instances.find? fun i => decide (i.id = inst.id)) =
      some (termF inst) := by
    rw [hs2inst, find?_map_update s.instances inst.id termF (fun x => rfl), hfind]
    rfl
  have hs2nd : (s2.instances.map (fun i => i.id)).Nodup := by
    rw [hs2inst, map_update_ids s.instances inst.id termF (fun x => rfl)]
    exact hnd
  have hs2mem : termF inst ∈ s2.instances := List.mem_of_find?_eq_some hs2find
  have hu2 : get_user_by_name s2 (next_user_name (defnOf s inst).actors
      (some (userNameOf s inst.assigned_user_id))) = some nu := hu
  set reuseF : TaskInstance → TaskInstance := fun i =>
    { i with assigned_user_id := nu.id, assigned_at := now,
             deadline_repeat := now + (defnOf s inst).reproduction_period,
             deadline_final := now + (defnOf s inst).pass_over_period,
             status := STATUS_ACTIVE,
             start_date := find_start_datetime now (defnOf s inst).start_preferences
               (some (max (now + (defnOf s inst).reproduction_period)
                 (now + (defnOf s inst).pass_over_period))) (defnOf s inst).task_days,
             allow_reassignment := false } with hreuseF
  by_cases hallow : inst.allow_reassignment
  · rw [if_pos hallow] at heq
    rcases hex : get_active_task_instance_for_user s2 (defnOf s inst).id nu.id
        with _ | ex
    · -- create path
      have hassign := assign_create_eq s2 now (defnOf s inst)
        (some (userNameOf s inst.assigned_user_id)) nu hu2 hex
      rw [hassign] at heq
      refine ⟨?_, ?_, ?_⟩
      · rw [heq]
        exact find?_append_some _ s2.instances _ _ hs2find
      · rw [heq]; rfl
      · intro _
        rw [heq]
        refine ⟨{ id := s2.next_instance_id, task_definition_id := (defnOf s inst).id,
                  assigned_user_id := nu.id, assigned_at := now,
                  deadline_repeat := now + (defnOf s inst).reproduction_period,
                  deadline_final := now + (defnOf s inst).pass_over_period,
                  completed_at := none, status := STATUS_ACTIVE,
                  start_date := find_start_datetime now (defnOf s inst).start_preferences
                    (some (max (now + (defnOf s inst).reproduction_period)
                      (now + (defnOf s inst).pass_over_period)))
                    (defnOf s inst).task_days,
                  allow_reassignment := true }, ?_, rfl, rfl, rfl⟩
        unfold create_task_instance
        simp
    · -- reuse path
      have hassign := assign_reuse_eq s2 now (defnOf s inst)
        (some (userNameOf s inst.assigned_user_id)) nu ex hu2 hex
      rw [hassign] at heq
      obtain ⟨hexmem, hexdef, hexterm, hexuser⟩ := find?_pred_user s2 _ _ ex hex
      have hexne : inst.id ≠ ex.id := by
        intro hcontra
        have : termF inst = ex :=
          id_unique s2.instances hs2nd (termF inst) ex hs2mem hexmem hcontra
        rw [← this] at hexterm
        exact hexterm rfl
      refine ⟨?_, ?_, ?_⟩
      · rw [heq]
        show ((update_task_instance s2 ex.id reuseF).instances.find?
            fun i => decide (i.id = inst.id)) = some (termF inst)
        unfold update_task_instance
        dsimp only
        rw [find?_map_update_ne s2.instances inst.id ex.id reuseF (fun x => rfl) hexne]
        exact hs2find
      · rw [heq]; rfl
      · intro _
        rw [heq]
        show ∃ j ∈ (update_task_instance s2 ex.id reuseF).instances, _
        refine ⟨reuseF ex,
          (mem_update_instances s2 ex.id reuseF (reuseF ex)).mpr ⟨ex, hexmem, ?_⟩,
          ?_, rfl, rfl⟩
        · rw [if_pos rfl]
        · exact hexdef
  · rw [if_neg hallow] at heq
    refine ⟨?_, ?_, ?_⟩
    · rw [heq]
      exact hs2find
    · rw [heq]; rfl
    · intro hcontra
      exact absurd hcontra hallow

/-- Witness state for C3: roster `[A, B]`, current actor A holds an
overdue Active, reassignable instance of a Change-behavior definition. -/
def changeState : DBState :=
  { users := [{ id := 1, name := "A" }, { id := 2, name := "B" }]
    definitions := [{ id := 1, name := "D", reproduction_period := 100,
                      pass_over_period := 100, actors := ["A", "B"],
                      overdue_behavior := BEHAVIOR_CHANGE,
                      start_preferences := [],
                      task_days := some 0, is_active := true }]
    instances := [{ id := 1, task_definition_id := 1, assigned_user_id := 1,
                    assigned_at := -10, deadline_repeat := 0, deadline_final := -1,
                    completed_at := none, status := STATUS_ACTIVE, start_date := 0,
                    allow_reassignment := true }]
    logs := [], next_instance_id := 2 }

/-- The instance of `changeState`. -/
def changeInst : TaskInstance :=
  { id := 1, task_definition_id := 1, assigned_user_id := 1,
    assigned_at := -10, deadline_repeat := 0, deadline_final := -1,
    completed_at := none, status := STATUS_ACTIVE, start_date := 0,
    allow_reassignment := true }

theorem change_behavior_transition_witness :
    ((check_and_update_instance_state changeState 0 changeInst.id).instances.find?
        fun i => decide (i.id = changeInst.id)) =
      some { changeInst with status := STATUS_TERMINATED } ∧
    ∃ j ∈ (check_and_update_instance_state changeState 0 changeInst.id).instances,
      j.task_definition_id = (defnOf changeState changeInst).id ∧
      j.status = STATUS_ACTIVE ∧ j.assigned_user_id = 2 := by
  have h := change_behavior_transition changeState 0 changeInst
    { id := 2, name := "B" } (by decide) (by decide) (by decide) (by decide)
    (by decide) (by decide)
  exact ⟨h.1, h.2.2 rfl⟩

/-! ## C4: KeepAndChange transition -/

lemma kac_ne_change : BEHAVIOR_KEEP_AND_CHANGE ≠ BEHAVIOR_CHANGE := by decide

lemma assign_nouser_eq (s : DBState) (now : Int) (defn : TaskDefinition)
    (cur : Option String)
    (hu : get_user_by_name s (next_user_name defn.actors cur) = none) :
    assign_to_next_user s now defn cur = s := by
  unfold assign_to_next_user
  dsimp only
  rw [hu]

lemma assign_to_next_user_mem (st : DBState) (now : Int) (defn : TaskDefinition)
    (cur : Option String) (j : TaskInstance)
    (hj : j ∈ (assign_to_next_user st now defn cur).instances) :
    j ∈ st.instances ∨
      (j.status = STATUS_ACTIVE ∧ j.deadline_final = now + defn.pass_over_period) := by
  rcases hu : get_user_by_name st (next_user_name defn.actors cur) with _ | nu
  · rw [assign_nouser_eq st now defn cur hu] at hj
    exact Or.inl hj
  · rcases hex : get_active_task_instance_for_user st defn.id nu.id with _ | ex
    · rw [assign_create_eq st now defn cur nu hu hex] at hj
      unfold create_task_instance at hj
      dsimp only at hj
      rcases List.mem_append.mp hj with h | h
      · exact Or.inl h
      · rcases List.mem_singleton.mp h with rfl
        exact Or.inr ⟨rfl, rfl⟩
    · rw [assign_reuse_eq st now defn cur nu ex hu hex] at hj
      rcases (mem_update_instances _ _ _ _).mp hj with ⟨k, hk, rfl⟩
      by_cases hke : k.id = ex.id
      · rw [if_pos hke]
        exact Or.inr ⟨rfl, rfl⟩
      · rw [if_neg hke]
        exact Or.inl hk

lemma check_kac_eq (s : DBState) (now : Int) (inst : TaskInstance)
    (hfind : (s.instances.find? fun i => decide (i.id = inst.id)) = some inst)
    (hact : inst.status = STATUS_ACTIVE)
    (hov : now > inst.deadline_final)
    (hbeh : (defnOf s inst).overdue_behavior = BEHAVIOR_KEEP_AND_CHANGE) :
    check_and_update_instance_state s now inst.id =
      update_task_instance
        (if inst.allow_reassignment then
          assign_to_next_user s now (defnOf s inst)
            (some (userNameOf s inst.assigned_user_id))
        else s)
        inst.id
        (fun i => { i with deadline_final := now + (defnOf s inst).pass_over_period,
                           allow_reassignment := false }) := by
  have hnc : ¬ inst.status = STATUS_COMPLETED := by
    rw [hact]; exact status_active_ne_completed
  have hb1 : ¬ (defnOf s inst).overdue_behavior = BEHAVIOR_CHANGE := by
    rw [hbeh]; exact kac_ne_change
  unfold check_and_update_instance_state
  rw [hfind]
  dsimp only
  rw [if_neg hnc, if_pos (And.intro hact hov), if_neg hb1, if_pos hbeh]

/-- A Keep-and-Change scenario with a single-actor roster: the "advance to
next actor" reuses the current actor's own instance instead of producing a
second one. -/
def kacState : DBState :=
  { users := [{ id := 1, name := "A" }]
    definitions := [{ id := 1, name := "D", reproduction_period := 100,
                      pass_over_period := 100, actors := ["A"],
                      overdue_behavior := BEHAVIOR_KEEP_AND_CHANGE,
                      start_preferences := [],
                      task_days := some 0, is_active := true }]
    instances := [{ id := 1, task_definition_id := 1, assigned_user_id := 1,
                    assigned_at := -10, deadline_repeat := 0, deadline_final := -1,
                    completed_at := none, status := STATUS_ACTIVE, start_date := 0,
                    allow_reassignment := true }]
    logs := [], next_instance_id := 2 }

/-- The instance of `kacState`. -/
def kacInst : TaskInstance :=
  { id := 1, task_definition_id := 1, assigned_user_id := 1,
    assigned_at := -10, deadline_repeat := 0, deadline_final := -1,
    completed_at := none, status := STATUS_ACTIVE, start_date := 0,
    allow_reassignment := true }

/-- C4 (counterexample): with roster `[A]` and a reassignable overdue
KeepAndChange instance, the promised second concurrently-active instance
does not exist after evaluation — rotation lands on the same actor and the
existing instance is reused, so the repository still holds exactly one
instance. -/
theorem keep_and_change_single_actor_no_second :
    kacInst.status = STATUS_ACTIVE ∧ kacInst.allow_reassignment = true ∧
    (0 : Int) > kacInst.deadline_final ∧
    (defnOf kacState kacInst).overdue_behavior = BEHAVIOR_KEEP_AND_CHANGE ∧
    (check_and_update_instance_state kacState 0 kacInst.id).instances.length = 1 ∧
    ∀ j ∈ (check_and_update_instance_state kacState 0 kacInst.id).instances,
      j.id = kacInst.id := by
  refine ⟨rfl, rfl, by decide, rfl, by decide, by decide⟩

/-- C4 (amended): for an Active instance past its final deadline under
KeepAndChange, evaluation leaves the instance Active with
`deadline_final = now + pass_over_period` and `allow_reassignment = false`;
and when its `allow_reassignment` was true before the update, *provided the
next actor of the roster is a registered user distinct from the current
actor*, a second non-terminated Active instance of the same definition
exists afterwards (a single-actor roster instead reuses the same instance,
and an unregistered next actor is skipped). -/
theorem keep_and_change_transition
    (s : DBState) (now : Int) (inst : TaskInstance) (nu : User)
    (hnd : (s.instances.map (fun i => i.id)).Nodup)
    (hbound : ∀ i ∈ s.instances, i.id < s.next_instance_id)
    (hfind : (s.instances.find? fun i => decide (i.id = inst.id)) = some inst)
    (hact : inst.status = STATUS_ACTIVE)
    (hov : now > inst.deadline_final)
    (hbeh : (defnOf s inst).overdue_behavior = BEHAVIOR_KEEP_AND_CHANGE)
    (hu : get_user_by_name s (next_user_name (defnOf s inst).actors
            (some (userNameOf s inst.assigned_user_id))) = some nu)
    (hneu : nu.id ≠ inst.assigned_user_id) :
    (∀ i ∈ (check_and_update_instance_state s now inst.id).instances,
      i.id = inst.id →
        i.status = STATUS_ACTIVE ∧
        i.deadline_final = now + (defnOf s inst).pass_over_period ∧
        i.allow_reassignment = false) ∧
    (inst.allow_reassignment = true →
      ∃ j ∈ (check_and_update_instance_state s now inst.id).instances,
        j.id ≠ inst.id ∧ j.status = STATUS_ACTIVE ∧
        j.task_definition_id = (defnOf s inst).id ∧ j.assigned_user_id = nu.id) := by
  have hinstmem : inst ∈ s.instances := List.mem_of_find?_eq_some hfind
  have heq := check_kac_eq s now inst hfind hact hov hbeh
  set F2 : TaskInstance → TaskInstance := fun i =>
    { i with deadline_final := now + (defnOf s inst).pass_over_period,
             allow_reassignment := false } with hF2
  set s1 : DBState :=
    if inst.allow_reassignment then
      assign_to_next_user s now (defnOf s inst)
        (some (userNameOf s inst.assigned_user_id))
    else s with hs1
  have hs1mem : ∀ j ∈ s1.instances,
      j ∈ s.instances ∨ (j.status = STATUS_ACTIVE ∧
        j.deadline_final = now + (defnOf s inst).pass_over_period) := by
    intro j hj
    rw [hs1] at hj
    by_cases hallow : inst.allow_reassignment
    · rw [if_pos hallow] at hj
      exact assign_to_next_user_mem s now (defnOf s inst) _ j hj
    · rw [if_neg hallow] at hj
      exact Or.inl hj
  constructor
  · intro i hi hid
    rw [heq] at hi
    rcases (mem_update_instances s1 inst.id F2 i).mp hi with ⟨j, hj, rfl⟩
    by_cases hje : j.id = inst.id
    · rw [if_pos hje]
      rw [if_pos hje] at hid
      refine ⟨?_, rfl, rfl⟩
      show j.status = STATUS_ACTIVE
      rcases hs1mem j hj with hmem | ⟨hst, _⟩
      · rw [id_unique s.instances hnd j inst hmem hinstmem hje]
        exact hact
      · exact hst
    · rw [if_neg hje] at hid ⊢
      exact absurd hid hje
  · intro hallow
    have hs1assign : s1 = assign_to_next_user s now (defnOf s inst)
        (some (userNameOf s inst.assigned_user_id)) := by
      rw [hs1, if_pos hallow]
    rcases hex : get_active_task_instance_for_user s (defnOf s inst).id nu.id
        with _ | ex
    · -- create path
      have hcreate := assign_create_eq s now (defnOf s inst)
        (some (userNameOf s inst.assigned_user_id)) nu hu hex
      rw [hcreate] at hs1assign
      set newI : TaskInstance :=
        { id := s.next_instance_id, task_definition_id := (defnOf s inst).id,
          assigned_user_id := nu.id, assigned_at := now,
          deadline_repeat := now + (defnOf s inst).reproduction_period,
          deadline_final := now + (defnOf s inst).pass_over_period,
          completed_at := none, status := STATUS_ACTIVE,
          start_date := find_start_datetime now (defnOf s inst).start_preferences
            (some (max (now + (defnOf s inst).reproduction_period)
              (now + (defnOf s inst).pass_over_period))) (defnOf s inst).task_days,
          allow_reassignment := true } with hnewI
    -- the new row's id is fresh, hence distinct from the processed instance
      have hidne : newI.id ≠ inst.id := by
        have := hbound inst hinstmem
        rw [hnewI]
        dsimp only
        omega
      rw [heq]
      refine ⟨newI, (mem_update_instances s1 inst.id F2 newI).mpr
        ⟨newI, ?_, by rw [if_neg hidne]⟩, hidne, rfl, rfl, rfl⟩
      rw [hs1assign]
      unfold create_task_instance
      simp [hnewI]
    · -- reuse path
      have hreuse := assign_reuse_eq s now (defnOf s inst)
        (some (userNameOf s inst.assigned_user_id)) nu ex hu hex
      rw [hreuse] at hs1assign
      obtain ⟨hexmem, hexdef, hexterm, hexuser⟩ := find?_pred_user s _ _ ex hex
      have hexne : ex.id ≠ inst.id := by
        intro hcontra
        have hexeq : ex = inst := id_unique s.instances hnd ex inst hexmem hinstmem hcontra
        rw [hexeq] at hexuser
        exact hneu hexuser.symm
      set jx : TaskInstance :=
        { ex with assigned_user_id := nu.id, assigned_at := now,
                  deadline_repeat := now + (defnOf s inst).reproduction_period,
                  deadline_final := now + (defnOf s inst).pass_over_period,
                  status := STATUS_ACTIVE,
                  start_date := find_start_datetime now
                    (defnOf s inst).start_preferences
                    (some (max (now + (defnOf s inst).reproduction_period)
                      (now + (defnOf s inst).pass_over_period)))
                    (defnOf s inst).task_days,
                  allow_reassignment := false } with hjx
      have hjxne : jx.id ≠ inst.id := hexne
      have hjx_s1 : jx ∈ s1.instances := by
        rw [hs1assign]
        refine (mem_update_instances s ex.id _ jx).mpr ⟨ex, hexmem, ?_⟩
        rw [if_pos rfl]
      rw [heq]
      refine ⟨jx, (mem_update_instances s1 inst.id F2 jx).mpr
        ⟨jx, hjx_s1, by rw [if_neg hjxne]⟩, hjxne, rfl, ?_, rfl⟩
      show ex.task_definition_id = (defnOf s inst).id
      exact hexdef

/-- Witness state for the amended C4: roster `[A, B]`, current actor A holds
an overdue, reassignable KeepAndChange instance; B is registered. -/
def kacState2 : DBState :=
  { users := [{ id := 1, name := "A" }, { id := 2, name := "B" }]
    definitions := [{ id := 1, name := "D", reproduction_period := 100,
                      pass_over_period := 100, actors := ["A", "B"],
                      overdue_behavior := BEHAVIOR_KEEP_AND_CHANGE,
                      start_preferences := [],
                      task_days := some 0, is_active := true }]
    instances := [{ id := 1, task_definition_id := 1, assigned_user_id := 1,
                    assigned_at := -10, deadline_repeat := 0, deadline_final := -1,
                    completed_at := none, status := STATUS_ACTIVE, start_date := 0,
                    allow_reassignment := true }]
    logs := [], next_instance_id := 2 }

/-- The instance of `kacState2`. -/
def kacInst2 : TaskInstance :=
  { id := 1, task_definition_id := 1, assigned_user_id := 1,
    assigned_at := -10, deadline_repeat := 0, deadline_final := -1,
    completed_at := none, status := STATUS_ACTIVE, start_date := 0,
    allow_reassignment := true }

theorem keep_and_change_transition_witness :
    (∀ i ∈ (check_and_update_instance_state kacState2 0 kacInst2.id).instances,
      i.id = kacInst2.id →
        i.status = STATUS_ACTIVE ∧
        i.deadline_final = 0 + (defnOf kacState2 kacInst2).pass_over_period ∧
        i.allow_reassignment = false) ∧
    ∃ j ∈ (check_and_update_instance_state kacState2 0 kacInst2.id).instances,
      j.id ≠ kacInst2.id ∧ j.status = STATUS_ACTIVE ∧
      j.task_definition_id = (defnOf kacState2 kacInst2).id ∧
      j.assigned_user_id = 2 := by
  have h := keep_and_change_transition kacState2 0 kacInst2 { id := 2, name := "B" }
    (by decide) (by decide) (by decide) (by decide) (by decide) (by decide)
    (by decide) (by decide)
  exact ⟨h.1, h.2 rfl⟩

/-! ## C2: the reassignability invariant -/

/-- There is a reassignable instance whenever the definition has any
non-terminated instance. -/
def goodDef (st : DBState) (defId : Nat) : Prop :=
  get_active_task_instance_for_definition st defId ≠ [] →
    ∃ i ∈ get_active_task_instance_for_definition st defId,
      i.allow_reassignment = true

lemma lastByDeadline_mem (i0 : TaskInstance) (rest : List TaskInstance) :
    lastByDeadline i0 rest ∈ i0 :: rest := by
  unfold lastByDeadline
  induction rest generalizing i0 with
  | nil => simp
  | cons a as ih =>
      simp only [List.foldl_cons]
      by_cases hc : i0.deadline_final ≤ a.deadline_final
      · rw [if_pos hc]
        rcases List.mem_cons.mp (ih a) with h | h
        · simp [h]
        · simp [h]
      · rw [if_neg hc]
        rcases List.mem_cons.mp (ih i0) with h | h
        · simp [h]
        · simp [h]

lemma active_for_def_update (st : DBState) (iid : Nat) (f : TaskInstance → TaskInstance)
    (hdef : ∀ x, (f x).task_definition_id = x.task_definition_id)
    (hst : ∀ x, (f x).status = x.status) (defId : Nat) :
    get_active_task_instance_for_definition (update_task_instance st iid f) defId =
      (get_active_task_instance_for_definition st defId).map
        (fun i => if i.id = iid then f i else i) := by
  unfold get_active_task_instance_for_definition update_task_instance
  dsimp only
  rw [List.filter_map]
  congr 1
  apply List.filter_congr
  intro x _
  by_cases hx : x.id = iid
  · simp [Function.comp, hx, hdef x, hst x]
  · simp [Function.comp, hx]

lemma reuse_mem_active_def (st : DBState) (defId uid : Nat) (ex : TaskInstance)
    (hex : get_active_task_instance_for_user st defId uid = some ex) :
    ex ∈ get_active_task_instance_for_definition st defId := by
  obtain ⟨hmem, hdef, hterm, _⟩ := find?_pred_user st defId uid ex hex
  unfold get_active_task_instance_for_definition
  rw [List.mem_filter]
  exact ⟨hmem, by simp [hdef, hterm]⟩

lemma goodDef_create (st : DBState) (d2 uid : Nat) (t1 t2 t3 sd : Int) (x : Nat)
    (h : goodDef st x) :
    goodDef (create_task_instance st d2 uid t1 t2 t3 sd STATUS_ACTIVE) x := by
  intro hne
  unfold get_active_task_instance_for_definition create_task_instance at hne ⊢
  dsimp only at hne ⊢
  rw [List.filter_append] at hne ⊢
  by_cases hp : d2 = x
  · subst hp
    refine ⟨{ id := st.next_instance_id, task_definition_id := d2,
              assigned_user_id := uid, assigned_at := t1, deadline_repeat := t2,
              deadline_final := t3, completed_at := none, status := STATUS_ACTIVE,
              start_date := sd, allow_reassignment := true },
            List.mem_append_right _ ?_, rfl⟩
    simp [List.mem_filter, active_ne_terminated]
  · rw [show (List.filter (fun i =>
        decide (i.task_definition_id = x ∧ i.status ≠ STATUS_TERMINATED))
          [({ id := st.next_instance_id, task_definition_id := d2,
              assigned_user_id := uid, assigned_at := t1, deadline_repeat := t2,
              deadline_final := t3, completed_at := none, status := STATUS_ACTIVE,
              start_date := sd, allow_reassignment := true } : TaskInstance)]) = []
      from by simp [hp]] at hne ⊢
    rw [List.append_nil] at hne ⊢
    rcases h hne with ⟨i, hi, hia⟩
    exact ⟨i, hi, hia⟩

lemma assign_step_preserves_goodDef (now : Int) (st : DBState) (d : TaskDefinition)
    (x : Nat) (h : goodDef st x) : goodDef (assign_step now st d) x := by
  unfold assign_step
  rcases hA : get_active_task_instance_for_definition st d.id with _ | ⟨i0, rest⟩
  · dsimp only
    rcases hu : get_user_by_name st (next_user_name d.actors none) with _ | nu
    · rw [assign_nouser_eq st now d none hu]
      exact h
    · rcases hex : get_active_task_instance_for_user st d.id nu.id with _ | ex
      · rw [assign_create_eq st now d none nu hu hex]
        exact goodDef_create st d.id nu.id now _ _ _ x h
      · have hmem := reuse_mem_active_def st d.id nu.id ex hex
        rw [hA] at hmem
        exact absurd hmem (List.not_mem_nil ex)
  · dsimp only
    split
    · intro hne
      rw [active_for_def_update st (lastByDeadline i0 rest).id
            (fun i => { i with allow_reassignment := true })
            (fun y => rfl) (fun y => rfl) x] at hne ⊢
      have hAne : get_active_task_instance_for_definition st x ≠ [] := by
        intro hc
        rw [hc] at hne
        exact hne rfl
      rcases h hAne with ⟨i, hi, hia⟩
      refine ⟨if i.id = (lastByDeadline i0 rest).id then
          { i with allow_reassignment := true } else i,
        List.mem_map_of_mem _ hi, ?_⟩
      by_cases hil : i.id = (lastByDeadline i0 rest).id
      · rw [if_pos hil]
      · rw [if_neg hil]
        exact hia
    · exact h

lemma assign_step_goodDef_self (now : Int) (st : DBState) (d : TaskDefinition) :
    goodDef (assign_step now st d) d.id := by
  unfold assign_step
  rcases hA : get_active_task_instance_for_definition st d.id with _ | ⟨i0, rest⟩
  · dsimp only
    rcases hu : get_user_by_name st (next_user_name d.actors none) with _ | nu
    · rw [assign_nouser_eq st now d none hu]
      intro hne
      exact absurd hA hne
    · rcases hex : get_active_task_instance_for_user st d.id nu.id with _ | ex
      · rw [assign_create_eq st now d none nu hu hex]
        intro _
        unfold get_active_task_instance_for_definition create_task_instance
        dsimp only
        rw [List.filter_append]
        refine ⟨{ id := st.next_instance_id, task_definition_id := d.id,
                  assigned_user_id := nu.id, assigned_at := now,
                  deadline_repeat := now + d.reproduction_period,
                  deadline_final := now + d.pass_over_period, completed_at := none,
                  status := STATUS_ACTIVE,
                  start_date := find_start_datetime now d.start_preferences
                    (some (max (now + d.reproduction_period)
                      (now + d.pass_over_period))) d.task_days,
                  allow_reassignment := true },
                List.mem_append_right _ ?_, rfl⟩
        simp [List.mem_filter, active_ne_terminated]
      · have hmem := reuse_mem_active_def st d.id nu.id ex hex
        rw [hA] at hmem
        exact absurd hmem (List.not_mem_nil ex)
  · dsimp only
    split
    · intro _
      rw [active_for_def_update st (lastByDeadline i0 rest).id
            (fun i => { i with allow_reassignment := true })
            (fun y => rfl) (fun y => rfl) d.id]
      have hlast : lastByDeadline i0 rest ∈
          get_active_task_instance_for_definition st d.id := by
        rw [hA]
        exact lastByDeadline_mem i0 rest
      refine ⟨{ lastByDeadline i0 rest with allow_reassignment := true },
        ?_, rfl⟩
      have hmm := List.mem_map_of_mem
        (fun i => if i.id = (lastByDeadline i0 rest).id then
          { i with allow_reassignment := true } else i) hlast
      dsimp only at hmm
      rw [if_pos rfl] at hmm
      exact hmm
    · rename_i hcond
      intro _
      rw [hA]
      have : ¬ ∀ i ∈ i0 :: rest, i.allow_reassignment = false := by
        intro hall
        exact hcond (List.all_eq_true.mpr (by simpa using hall))
      push_neg at this
      rcases this with ⟨i, hi, hia⟩
      exact ⟨i, hi, by simpa using hia⟩

lemma foldl_assign_preserves (now : Int) (l : List TaskDefinition) :
    ∀ (st : DBState) (x : Nat), goodDef st x →
      goodDef (l.foldl (assign_step now) st) x := by
  induction l with
  | nil => intro st x h; exact h
  | cons a l ih =>
      intro st x h
      exact ih (assign_step now st a) x (assign_step_preserves_goodDef now st a x h)

lemma foldl_assign_establishes (now : Int) (l : List TaskDefinition) :
    ∀ (st : DBState) (d : TaskDefinition), d ∈ l →
      goodDef (l.foldl (assign_step now) st) d.id := by
  induction l with
  | nil => intro st d hd; cases hd
  | cons a l ih =>
      intro st d hd
      rcases List.mem_cons.mp hd with rfl | hd1
      · exact foldl_assign_preserves now l (assign_step now st d) d.id
          (assign_step_goodDef_self now st d)
      · exact ih (assign_step now st a) d hd1

/-- C2 (amended): immediately after the assignment pass `_assign_new_tasks`,
every active definition with at least one non-terminated instance has at
least one non-terminated instance with `allow_reassignment = true`.  (The
deadline state machine can destroy this by the end of the cycle — see the
counterexample — and the next cycle's assignment pass restores it.) -/
theorem assign_pass_restores_reassignability
    (s : DBState) (now : Int) (defn : TaskDefinition)
    (hmem : defn ∈ s.definitions) (hact : defn.is_active = true) :
    get_active_task_instance_for_definition (assign_new_tasks s now) defn.id ≠ [] →
    ∃ i ∈ get_active_task_instance_for_definition (assign_new_tasks s now) defn.id,
      i.allow_reassignment = true := by
  have hd : defn ∈ get_active_task_definitions s :=
    List.mem_filter.mpr ⟨hmem, by simp [hact]⟩
  exact foldl_assign_establishes now (get_active_task_definitions s) s defn hd

/-- Cycle state for the C2 counterexample: definition with roster `[A, B]`
and Change behavior; A holds the only reassignable instance (Active,
overdue), B holds a cooling-down Completed, non-reassignable instance. -/
def cycleState : DBState :=
  { users := [{ id := 1, name := "A" }, { id := 2, name := "B" }]
    definitions := [{ id := 1, name := "D", reproduction_period := 100,
                      pass_over_period := 100, actors := ["A", "B"],
                      overdue_behavior := BEHAVIOR_CHANGE,
                      start_preferences := [],
                      task_days := some 0, is_active := true }]
    instances := [{ id := 1, task_definition_id := 1, assigned_user_id := 1,
                    assigned_at := -10, deadline_repeat := 0, deadline_final := -1,
                    completed_at := none, status := STATUS_ACTIVE, start_date := 0,
                    allow_reassignment := true },
                  { id := 2, task_definition_id := 1, assigned_user_id := 2,
                    assigned_at := -10, deadline_repeat := 0, deadline_final := 50,
                    completed_at := some 0, status := STATUS_COMPLETED,
                    start_date := 0, allow_reassignment := false }]
    logs := [], next_instance_id := 3 }

/-- C2 (counterexample): the reassignability invariant does not hold at
every point of a processing cycle.  Starting from `cycleState` — where the
invariant holds — one full cycle at `now = 0` (assignment pass followed by
the deadline state machine, credentials for both users) terminates A's
instance and reuses B's instance with `allow_reassignment := false`, so at
the end of the cycle the definition still has a non-terminated instance but
none of its non-terminated instances is reassignable. -/
theorem reassignability_violated_at_cycle_end :
    (∃ i ∈ get_active_task_instance_for_definition cycleState 1,
        i.allow_reassignment = true) ∧
    get_active_task_instance_for_definition
        (process_all_tasks cycleState 0 [1, 2]) 1 ≠ [] ∧
    ∀ i ∈ get_active_task_instance_for_definition
        (process_all_tasks cycleState 0 [1, 2]) 1,
      i.allow_reassignment = false := by
  refine ⟨by decide, by decide, by decide⟩

/-- Witness for `assign_pass_restores_reassignability` at `cycleState`. -/
theorem assign_pass_restores_reassignability_witness :
    ∃ i ∈ get_active_task_instance_for_definition (assign_new_tasks cycleState 0) 1,
      i.allow_reassignment = true :=
  assign_pass_restores_reassignability cycleState 0
    { id := 1, name := "D", reproduction_period := 100,
      pass_over_period := 100, actors := ["A", "B"],
      overdue_behavior := BEHAVIOR_CHANGE, start_preferences := [],
      task_days := some 0, is_active := true }
    (by decide) (by decide) (by decide)

/-! ## C1: idempotence of the deadline state machine -/

/-- Database well-formedness: primary keys are unique and below the
auto-increment counter. -/
def WF (s : DBState) : Prop :=
  (s.instances.map (fun i => i.id)).Nodup ∧
  ∀ i ∈ s.instances, i.id < s.next_instance_id

/-- Instances the `_process_active_instances` loop never touches: terminated
rows, rows of inactive definitions (excluded from the snapshot query), and
rows of users without Google credentials (skipped in the loop). -/
def exemptI (s : DBState) (credIds : List Nat) (i : TaskInstance) : Prop :=
  i.status = STATUS_TERMINATED ∨
  i.task_definition_id ∉ (get_active_task_definitions s).map (fun d => d.id) ∨
  i.assigned_user_id ∉ credIds

lemma defnOf_congr (s1 s2 : DBState) (h : s1.definitions = s2.definitions)
    (i : TaskInstance) : defnOf s1 i = defnOf s2 i := by
  unfold defnOf
  rw [h]

lemma noopCond_congr (s1 s2 : DBState) (h : s1.definitions = s2.definitions)
    (now : Int) (i : TaskInstance) : noopCond s1 now i ↔ noopCond s2 now i := by
  unfold noopCond
  rw [defnOf_congr s1 s2 h]

lemma exemptI_congr (s1 s2 : DBState) (h : s1.definitions = s2.definitions)
    (credIds : List Nat) (i : TaskInstance) :
    exemptI s1 credIds i ↔ exemptI s2 credIds i := by
  unfold exemptI get_active_task_definitions
  rw [h]

lemma defnOf_pass_nonneg (s : DBState)
    (hp : ∀ d ∈ s.definitions, 0 ≤ d.pass_over_period) (i : TaskInstance) :
    0 ≤ (defnOf s i).pass_over_period := by
  unfold defnOf
  rcases hfd : s.definitions.find? fun d => decide (d.id = i.task_definition_id)
      with _ | d
  · rw [hfd]
    simp
  · rw [hfd]
    simpa using hp d (List.mem_of_find?_eq_some hfd)

lemma reassign_eq_self (s : DBState) (now : Int) (inst : TaskInstance) :
    reassign_to_user s now inst = s := rfl

lemma update_WF (s : DBState) (iid : Nat) (f : TaskInstance → TaskInstance)
    (hf : ∀ x, (f x).id = x.id) (h : WF s) : WF (update_task_instance s iid f) := by
  constructor
  · show ((s.instances.map fun i => if i.id = iid then f i else i).map
      (fun i => i.id)).Nodup
    rw [map_update_ids s.instances iid f hf]
    exact h.1
  · intro i' hi'
    rcases (mem_update_instances s iid f i').mp hi' with ⟨j, hj, rfl⟩
    show (if j.id = iid then f j else j).id < s.next_instance_id
    by_cases hji : j.id = iid
    · rw [if_pos hji, hf j]
      exact h.2 j hj
    · rw [if_neg hji]
      exact h.2 j hj

lemma create_WF (s : DBState) (d2 uid : Nat) (t1 t2 t3 sd : Int) (st0 : String)
    (h : WF s) : WF (create_task_instance s d2 uid t1 t2 t3 sd st0) := by
  unfold create_task_instance WF
  dsimp only
  constructor
  · rw [List.map_append, List.nodup_append]
    refine ⟨h.1, by simp, ?_⟩
    intro a ha hb
    simp only [List.map_cons, List.map_nil, List.mem_singleton] at hb
    rcases List.mem_map.mp ha with ⟨j, hj, rfl⟩
    have := h.2 j hj
    omega
  · intro i' hi'
    rcases List.mem_append.mp hi' with hi1 | hi1
    · have := h.2 i' hi1
      show i'.id < s.next_instance_id + 1
      omega
    · rcases List.mem_singleton.mp hi1 with rfl
      show s.next_instance_id < s.next_instance_id + 1
      omega

lemma assign_users (st : DBState) (now : Int) (defn : TaskDefinition)
    (cur : Option String) : (assign_to_next_user st now defn cur).users = st.users := by
  rcases hu : get_user_by_name st (next_user_name defn.actors cur) with _ | nu
  · rw [assign_nouser_eq st now defn cur hu]
  · rcases hex : get_active_task_instance_for_user st defn.id nu.id with _ | ex
    · rw [assign_create_eq st now defn cur nu hu hex]
      rfl
    · rw [assign_reuse_eq st now defn cur nu ex hu hex]
      rfl

lemma assign_defs (st : DBState) (now : Int) (defn : TaskDefinition)
    (cur : Option String) :
    (assign_to_next_user st now defn cur).definitions = st.definitions := by
  rcases hu : get_user_by_name st (next_user_name defn.actors cur) with _ | nu
  · rw [assign_nouser_eq st now defn cur hu]
  · rcases hex : get_active_task_instance_for_user st defn.id nu.id with _ | ex
    · rw [assign_create_eq st now defn cur nu hu hex]
      rfl
    · rw [assign_reuse_eq st now defn cur nu ex hu hex]
      rfl

lemma assign_WF (st : DBState) (now : Int) (defn : TaskDefinition)
    (cur : Option String) (h : WF st) : WF (assign_to_next_user st now defn cur) := by
  rcases hu : get_user_by_name st (next_user_name defn.actors cur) with _ | nu
  · rw [assign_nouser_eq st now defn cur hu]
    exact h
  · rcases hex : get_active_task_instance_for_user st defn.id nu.id with _ | ex
    · rw [assign_create_eq st now defn cur nu hu hex]
      exact create_WF st defn.id nu.id now _ _ _ _ h
    · rw [assign_reuse_eq st now defn cur nu ex hu hex]
      exact update_WF st ex.id _ (fun x => rfl) h

lemma terminate_shape_props (s : DBState) (now : Int) (inst : TaskInstance)
    (nm : Option String) (hWF : WF s)
    (hp0 : ∀ i : TaskInstance, 0 ≤ (defnOf s i).pass_over_period) :
    ((if inst.allow_reassignment then
        assign_to_next_user
          (create_completion_log
            (update_task_instance s inst.id fun i => { i with status := STATUS_TERMINATED })
            inst.id inst.assigned_user_id now TRIGGER_PASSED_OVER)
          now (defnOf s inst) nm
      else
        create_completion_log
          (update_task_instance s inst.id fun i => { i with status := STATUS_TERMINATED })
          inst.id inst.assigned_user_id now TRIGGER_PASSED_OVER).users = s.users) ∧
    ((if inst.allow_reassignment then
        assign_to_next_user
          (create_completion_log
            (update_task_instance s inst.id fun i => { i with status := STATUS_TERMINATED })
            inst.id inst.assigned_user_id now TRIGGER_PASSED_OVER)
          now (defnOf s inst) nm
      else
        create_completion_log
          (update_task_instance s inst.id fun i => { i with status := STATUS_TERMINATED })
          inst.id inst.assigned_user_id now TRIGGER_PASSED_OVER).definitions =
      s.definitions) ∧
    WF (if inst.allow_reassignment then
        assign_to_next_user
          (create_completion_log
            (update_task_instance s inst.id fun i => { i with status := STATUS_TERMINATED })
            inst.id inst.assigned_user_id now TRIGGER_PASSED_OVER)
          now (defnOf s inst) nm
      else
        create_completion_log
          (update_task_instance s inst.id fun i => { i with status := STATUS_TERMINATED })
          inst.id inst.assigned_user_id now TRIGGER_PASSED_OVER) ∧
    ∀ i' ∈ (if inst.allow_reassignment then
        assign_to_next_user
          (create_completion_log
            (update_task_instance s inst.id fun i => { i with status := STATUS_TERMINATED })
            inst.id inst.assigned_user_id now TRIGGER_PASSED_OVER)
          now (defnOf s inst) nm
      else
        create_completion_log
          (update_task_instance s inst.id fun i => { i with status := STATUS_TERMINATED })
          inst.id inst.assigned_user_id now TRIGGER_PASSED_OVER).instances,
      (i' ∈ s.instances ∧ ¬ i'.id = inst.id) ∨
      i'.status = STATUS_TERMINATED ∨ now ≤ i'.deadline_final := by
  set s2 : DBState := create_completion_log
      (update_task_instance s inst.id fun i => { i with status := STATUS_TERMINATED })
      inst.id inst.assigned_user_id now TRIGGER_PASSED_OVER with hs2
  have hs2mem : ∀ i' ∈ s2.instances,
      (i' ∈ s.instances ∧ ¬ i'.id = inst.id) ∨ i'.status = STATUS_TERMINATED := by
    intro i' hi'
    have : i' ∈ (update_task_instance s inst.id
        fun i => { i with status := STATUS_TERMINATED }).instances := hi'
    rcases (mem_update_instances s inst.id _ i').mp this with ⟨j, hj, rfl⟩
    by_cases hji : j.id = inst.id
    · rw [if_pos hji]
      exact Or.inr rfl
    · rw [if_neg hji]
      exact Or.inl ⟨hj, hji⟩
  have hs2WF : WF s2 :=
    update_WF s inst.id _ (fun x => rfl) hWF
  by_cases hallow : inst.allow_reassignment
  · rw [if_pos hallow]
    refine ⟨assign_users s2 now (defnOf s inst) nm, assign_defs s2 now (defnOf s inst) nm,
      assign_WF s2 now (defnOf s inst) nm hs2WF, ?_⟩
    intro i' hi'
    rcases assign_to_next_user_mem s2 now (defnOf s inst) nm i' hi' with hmem2 | ⟨_, hdf⟩
    · rcases hs2mem i' hmem2 with h1 | h2
      · exact Or.inl h1
      · exact Or.inr (Or.inl h2)
    · refine Or.inr (Or.inr ?_)
      rw [hdf]
      have := hp0 inst
      omega
  · rw [if_neg hallow]
    refine ⟨rfl, rfl, hs2WF, ?_⟩
    intro i' hi'
    rcases hs2mem i' hi' with h1 | h2
    · exact Or.inl h1
    · exact Or.inr (Or.inl h2)

/-- What one state-machine step guarantees: collaborators untouched,
well-formedness kept, and every surviving instance is either an untouched
row with a different key, an untouched fixed point, or a row that the step
made terminal or pushed past `now`. -/
def checkStepConcl (s : DBState) (now : Int) (iid : Nat) : Prop :=
  (check_and_update_instance_state s now iid).users = s.users ∧
  (check_and_update_instance_state s now iid).definitions = s.definitions ∧
  WF (check_and_update_instance_state s now iid) ∧
  ∀ i' ∈ (check_and_update_instance_state s now iid).instances,
    (i' ∈ s.instances ∧ ¬ i'.id = iid) ∨
    (i' ∈ s.instances ∧ noopCond s now i') ∨
    i'.status = STATUS_TERMINATED ∨ now ≤ i'.deadline_final

lemma check_step_props (s : DBState) (now : Int) (iid : Nat)
    (hWF : WF s) (hp : ∀ d ∈ s.definitions, 0 ≤ d.pass_over_period) :
    checkStepConcl s now iid := by
  have hp0 := defnOf_pass_nonneg s hp
  unfold checkStepConcl
  rcases hfind : s.instances.find? (fun x => decide (x.id = iid)) with _ | inst
  · have heq : check_and_update_instance_state s now iid = s := by
      unfold check_and_update_instance_state
      rw [hfind]
    rw [heq]
    refine ⟨rfl, rfl, hWF, ?_⟩
    intro i' hi'
    left
    refine ⟨hi', ?_⟩
    intro hid
    have := List.find?_eq_none.mp hfind i' hi'
    simp [hid] at this
  · have hiid : inst.id = iid := by simpa using List.find?_some hfind
    subst hiid
    have hinstmem : inst ∈ s.instances := List.mem_of_find?_eq_some hfind
    have hnoopCase : noopCond s now inst →
        (check_and_update_instance_state s now inst.id).users = s.users ∧
        (check_and_update_instance_state s now inst.id).definitions = s.definitions ∧
        WF (check_and_update_instance_state s now inst.id) ∧
        ∀ i' ∈ (check_and_update_instance_state s now inst.id).instances,
          (i' ∈ s.instances ∧ ¬ i'.id = inst.id) ∨
          (i' ∈ s.instances ∧ noopCond s now i') ∨
          i'.status = STATUS_TERMINATED ∨ now ≤ i'.deadline_final := by
      intro hn
      have heq := check_noop s now inst.id
        (by intro i hf; rw [hfind] at hf; cases hf; exact hn)
      rw [heq]
      refine ⟨rfl, rfl, hWF, ?_⟩
      intro i' hi'
      by_cases hid : i'.id = inst.id
      · right
        left
        refine ⟨hi', ?_⟩
        have hieq : i' = inst := id_unique s.instances hWF.1 i' inst hi' hinstmem hid
        rw [hieq]
        exact hn
      · exact Or.inl ⟨hi', hid⟩
    by_cases hcomp : inst.status = STATUS_COMPLETED
    · by_cases hov : now > inst.deadline_final
      · have heq : check_and_update_instance_state s now inst.id =
            (if inst.allow_reassignment then
              assign_to_next_user
                (create_completion_log
                  (update_task_instance s inst.id fun i =>
                    { i with status := STATUS_TERMINATED })
                  inst.id inst.assigned_user_id now TRIGGER_PASSED_OVER)
                now (defnOf s inst) (some (userNameOf s inst.assigned_user_id))
            else
              create_completion_log
                (update_task_instance s inst.id fun i =>
                  { i with status := STATUS_TERMINATED })
                inst.id inst.assigned_user_id now TRIGGER_PASSED_OVER) := by
          unfold check_and_update_instance_state
          rw [hfind]
          dsimp only
          rw [if_pos hcomp, if_pos hov]
        have hT := terminate_shape_props s now inst
          (some (userNameOf s inst.assigned_user_id)) hWF hp0
        rw [heq]
        refine ⟨hT.1, hT.2.1, hT.2.2.1, ?_⟩
        intro i' hi'
        rcases hT.2.2.2 i' hi' with h1 | h
        · exact Or.inl h1
        · exact Or.inr (Or.inr h)
      · exact hnoopCase ⟨fun _ => by omega,
          fun ha => absurd (ha.symm.trans hcomp) status_active_ne_completed⟩
    · by_cases hao : inst.status = STATUS_ACTIVE ∧ now > inst.deadline_final
      · by_cases hbc : (defnOf s inst).overdue_behavior = BEHAVIOR_CHANGE
        · have heq := check_change_eq s now inst hfind hao.1 hao.2 hbc
          have hT := terminate_shape_props s now inst
            (some (userNameOf s inst.assigned_user_id)) hWF hp0
          rw [heq]
          refine ⟨hT.1, hT.2.1, hT.2.2.1, ?_⟩
          intro i' hi'
          rcases hT.2.2.2 i' hi' with h1 | h
          · exact Or.inl h1
          · exact Or.inr (Or.inr h)
        · by_cases hbk : (defnOf s inst).overdue_behavior = BEHAVIOR_KEEP_AND_CHANGE
          · have heq := check_kac_eq s now inst hfind hao.1 hao.2 hbk
            rw [heq]
            have hs1users :
                (if inst.allow_reassignment then
                  assign_to_next_user s now (defnOf s inst)
                    (some (userNameOf s inst.assigned_user_id))
                else s).users = s.users := by
              split
              · exact assign_users s now (defnOf s inst) _
              · rfl
            have hs1defs :
                (if inst.allow_reassignment then
                  assign_to_next_user s now (defnOf s inst)
                    (some (userNameOf s inst.assigned_user_id))
                else s).definitions = s.definitions := by
              split
              · exact assign_defs s now (defnOf s inst) _
              · rfl
            have hs1WF : WF (if inst.allow_reassignment then
                assign_to_next_user s now (defnOf s inst)
                  (some (userNameOf s inst.assigned_user_id))
              else s) := by
              split
              · exact assign_WF s now (defnOf s inst) _ hWF
              · exact hWF
            have hs1mem : ∀ j ∈ (if inst.allow_reassignment then
                assign_to_next_user s now (defnOf s inst)
                  (some (userNameOf s inst.assigned_user_id))
              else s).instances,
                j ∈ s.instances ∨
                (j.status = STATUS_ACTIVE ∧
                  j.deadline_final = now + (defnOf s inst).pass_over_period) := by
              intro j hj
              by_cases hallow : inst.allow_reassignment
              · rw [if_pos hallow] at hj
                exact assign_to_next_user_mem s now (defnOf s inst) _ j hj
              · rw [if_neg hallow] at hj
                exact Or.inl hj
            refine ⟨hs1users, hs1defs, update_WF _ inst.id _ (fun x => rfl) hs1WF, ?_⟩
            intro i' hi'
            rcases (mem_update_instances _ inst.id _ i').mp hi' with ⟨j, hj, rfl⟩
            by_cases hji : j.id = inst.id
            · rw [if_pos hji]
              refine Or.inr (Or.inr (Or.inr ?_))
              show now ≤ now + (defnOf s inst).pass_over_period
              have := hp0 inst
              omega
            · rw [if_neg hji]
              rcases hs1mem j hj with hj1 | ⟨_, hdf⟩
              · exact Or.inl ⟨hj1, hji⟩
              · refine Or.inr (Or.inr (Or.inr ?_))
                rw [hdf]
                have := hp0 inst
                omega
          · by_cases hbkeep : (defnOf s inst).overdue_behavior = BEHAVIOR_KEEP
            · have heq : check_and_update_instance_state s now inst.id =
                  update_task_instance s inst.id (fun i =>
                    { i with deadline_final :=
                        now + (defnOf s inst).pass_over_period }) := by
                unfold check_and_update_instance_state
                rw [hfind]
                dsimp only
                rw [if_neg hcomp, if_pos hao, if_neg hbc, if_neg hbk, if_pos hbkeep]
              rw [heq]
              refine ⟨rfl, rfl, update_WF s inst.id _ (fun x => rfl) hWF, ?_⟩
              intro i' hi'
              rcases (mem_update_instances s inst.id _ i').mp hi' with ⟨j, hj, rfl⟩
              by_cases hji : j.id = inst.id
              · rw [if_pos hji]
                refine Or.inr (Or.inr (Or.inr ?_))
                show now ≤ now + (defnOf s inst).pass_over_period
                have := hp0 inst
                omega
              · rw [if_neg hji]
                exact Or.inl ⟨hj, hji⟩
            · exact hnoopCase ⟨fun hc => absurd hc hcomp,
                fun _ _ => ⟨hbc, hbk, hbkeep⟩⟩
      · exact hnoopCase ⟨fun hc => absurd hc hcomp,
          fun ha hov2 => absurd ⟨ha, hov2⟩ hao⟩

lemma machine_fold_inv (now : Int) (credIds : List Nat) (l : List Nat) :
    ∀ (st : DBState), WF st →
      (∀ d ∈ st.definitions, 0 ≤ d.pass_over_period) →
      (∀ i ∈ st.instances, noopCond st now i ∨ exemptI st credIds i ∨ i.id ∈ l) →
      WF (l.foldl (machine_step now credIds) st) ∧
      (l.foldl (machine_step now credIds) st).definitions = st.definitions ∧
      ∀ i ∈ (l.foldl (machine_step now credIds) st).instances,
        noopCond (l.foldl (machine_step now credIds) st) now i ∨
        exemptI (l.foldl (machine_step now credIds) st) credIds i := by
  induction l with
  | nil =>
      intro st hWF _ hinv
      refine ⟨hWF, rfl, ?_⟩
      intro i hi
      rcases hinv i hi with h | h | h
      · exact Or.inl h
      · exact Or.inr h
      · exact absurd h (List.not_mem_nil _)
  | cons iid rest ih =>
      intro st hWF hp hinv
      simp only [List.foldl_cons]
      have hstep1 : WF (machine_step now credIds st iid) ∧
          (machine_step now credIds st iid).definitions = st.definitions ∧
          ∀ i ∈ (machine_step now credIds st iid).instances,
            noopCond (machine_step now credIds st iid) now i ∨
            exemptI (machine_step now credIds st iid) credIds i ∨ i.id ∈ rest := by
        unfold machine_step
        rcases hfind : st.instances.find? (fun i => decide (i.id = iid)) with _ | inst
        · rw [hfind]
          refine ⟨hWF, rfl, ?_⟩
          intro i hi
          rcases hinv i hi with h | h | h
          · exact Or.inl h
          · exact Or.inr (Or.inl h)
          · rcases List.mem_cons.mp h with he | he
            · exfalso
              have := List.find?_eq_none.mp hfind i hi
              simp [he] at this
            · exact Or.inr (Or.inr he)
        · rw [hfind]
          dsimp only
          by_cases hcred : inst.assigned_user_id ∈ credIds
          · rw [if_pos hcred]
            have C := check_step_props st now iid hWF hp
            unfold checkStepConcl at C
            refine ⟨C.2.2.1, C.2.1, ?_⟩
            intro i hi
            rcases C.2.2.2 i hi with ⟨hmem, hidne⟩ | ⟨hmem, hnoop⟩ | hterm | hdf
            · rcases hinv i hmem with h | h | h
              · exact Or.inl ((noopCond_congr _ st C.2.1 now i).mpr h)
              · exact Or.inr (Or.inl ((exemptI_congr _ st C.2.1 credIds i).mpr h))
              · rcases List.mem_cons.mp h with he | he
                · exact absurd he hidne
                · exact Or.inr (Or.inr he)
            · exact Or.inl ((noopCond_congr _ st C.2.1 now i).mpr hnoop)
            · exact Or.inr (Or.inl (Or.inl hterm))
            · exact Or.inl ⟨fun _ => hdf, fun _ h2 => absurd h2 (by omega)⟩
          · rw [if_neg hcred]
            refine ⟨hWF, rfl, ?_⟩
            intro i hi
            rcases hinv i hi with h | h | h
            · exact Or.inl h
            · exact Or.inr (Or.inl h)
            · rcases List.mem_cons.mp h with he | he
              · have hiid2 : inst.id = iid := by simpa using List.find?_some hfind
                have hieq : i = inst := id_unique st.instances hWF.1 i inst hi
                  (List.mem_of_find?_eq_some hfind) (he.trans hiid2.symm)
                refine Or.inr (Or.inl (Or.inr (Or.inr ?_)))
                rw [hieq]
                exact hcred
              · exact Or.inr (Or.inr he)
      obtain ⟨hW1, hd1, hi1⟩ := hstep1
      have hp1 : ∀ d ∈ (machine_step now credIds st iid).definitions,
          0 ≤ d.pass_over_period := by
        rw [hd1]
        exact hp
      obtain ⟨hW2, hd2, hi2⟩ := ih (machine_step now credIds st iid) hW1 hp1 hi1
      exact ⟨hW2, hd2.trans hd1, hi2⟩

lemma machine_run_fixed (now : Int) (credIds : List Nat) (s1 : DBState)
    (hWF : WF s1)
    (hstable : ∀ i ∈ s1.instances, noopCond s1 now i ∨ exemptI s1 credIds i) :
    process_active_instances s1 now credIds = s1 := by
  unfold process_active_instances
  have key : ∀ l : List Nat, (∀ iid ∈ l, iid ∈ get_all_active_instance_ids s1) →
      l.foldl (machine_step now credIds) s1 = s1 := by
    intro l
    induction l with
    | nil => intro _; rfl
    | cons iid rest ih =>
        intro hl
        have hstep : machine_step now credIds s1 iid = s1 := by
          have hmem := hl iid (List.mem_cons_self iid rest)
          unfold get_all_active_instance_ids get_all_active_task_instances at hmem
          dsimp only at hmem
          rcases List.mem_map.mp hmem with ⟨j, hj, hjid⟩
          have hjmem : j ∈ s1.instances := List.mem_of_mem_filter hj
          have hjpred := List.of_mem_filter hj
          have hfind := find?_eq_some_of_mem s1.instances hWF.1 j hjmem
          rw [hjid] at hfind
          unfold machine_step
          rw [hfind]
          dsimp only
          by_cases hcred : j.assigned_user_id ∈ credIds
          · rw [if_pos hcred]
            apply check_noop
            intro i hf
            rw [hfind] at hf
            cases hf
            rcases hstable j hjmem with h | h
            · exact h
            · exfalso
              simp only [decide_eq_true_eq] at hjpred
              rcases h with h1 | h1 | h1
              · exact hjpred.2 h1
              · exact h1 hjpred.1
              · exact h1 hcred
          · rw [if_neg hcred]
        rw [List.foldl_cons, hstep]
        exact ih (fun x hx => hl x (List.mem_cons_of_mem _ hx))
  exact key _ (fun x hx => hx)

/-- C1: the deadline state machine is idempotent.  Evaluating
`_process_active_instances` twice in succession at the same instant `now`
(with the same set of credentialed users) leaves the repository identical to
evaluating it once — including for instances created or reused by the first
run.  The hypotheses are database well-formedness (unique primary keys below
the auto-increment counter) and the system invariant that pass-over periods
are non-negative durations (the configuration parser takes the absolute
value of the number it reads). -/
theorem deadline_state_machine_idempotent (s : DBState) (now : Int)
    (credIds : List Nat)
    (hnd : (s.instances.map (fun i => i.id)).Nodup)
    (hbound : ∀ i ∈ s.instances, i.id < s.next_instance_id)
    (hp : ∀ d ∈ s.definitions, 0 ≤ d.pass_over_period) :
    process_active_instances (process_active_instances s now credIds) now credIds =
      process_active_instances s now credIds := by
  have hWF : WF s := ⟨hnd, hbound⟩
  have hinv0 : ∀ i ∈ s.instances, noopCond s now i ∨ exemptI s credIds i ∨
      i.id ∈ get_all_active_instance_ids s := by
    intro i hi
    by_cases h1 : i.status = STATUS_TERMINATED
    · exact Or.inr (Or.inl (Or.inl h1))
    · by_cases h2 : i.task_definition_id ∈
          (get_active_task_definitions s).map (fun d => d.id)
      · by_cases h3 : i.assigned_user_id ∈ credIds
        · refine Or.inr (Or.inr ?_)
          unfold get_all_active_instance_ids get_all_active_task_instances
          dsimp only
          exact List.mem_map_of_mem _ (List.mem_filter.mpr ⟨hi, by simp [h1, h2]⟩)
        · exact Or.inr (Or.inl (Or.inr (Or.inr h3)))
      · exact Or.inr (Or.inl (Or.inr (Or.inl h2)))
  obtain ⟨hW1, _, hstable⟩ :=
    machine_fold_inv now credIds (get_all_active_instance_ids s) s hWF hp hinv0
  exact machine_run_fixed now credIds _ hW1 hstable

/-- Witness state for the idempotence theorem: two users, a Change-behavior
definition, an overdue Active instance and a cooling Completed instance. -/
def idemState : DBState :=
  { users := [{ id := 1, name := "A" }, { id := 2, name := "B" }]
    definitions := [{ id := 1, name := "D", reproduction_period := 100,
                      pass_over_period := 100, actors := ["A", "B"],
                      overdue_behavior := BEHAVIOR_CHANGE,
                      start_preferences := [],
                      task_days := some 0, is_active := true }]
    instances := [{ id := 1, task_definition_id := 1, assigned_user_id := 1,
                    assigned_at := -10, deadline_repeat := 0, deadline_final := -1,
                    completed_at := none, status := STATUS_ACTIVE, start_date := 0,
                    allow_reassignment := true },
                  { id := 2, task_definition_id := 1, assigned_user_id := 2,
                    assigned_at := -10, deadline_repeat := 0, deadline_final := 50,
                    completed_at := some 0, status := STATUS_COMPLETED,
                    start_date := 0, allow_reassignment := false }]
    logs := [], next_instance_id := 3 }

theorem deadline_state_machine_idempotent_witness :
    process_active_instances (process_active_instances idemState 0 [1, 2]) 0 [1, 2] =
      process_active_instances idemState 0 [1, 2] :=
  deadline_state_machine_idempotent idemState 0 [1, 2] (by decide) (by decide)
    (by decide)
